import Mathlib

/-!
# Transcoding arithmetic of the AD7156 driver and the AD7124 IIO application

Shallow embedding of the conversion code in `drivers/AD7156/AD7156.c` and
`projects/iio_ad7124/src/iio_ad7124.c`.

* A C `float` is a rational number; every single-precision operation is the exact
  operation followed by `f32`, IEEE-754 binary32 rounding to nearest, ties to even
  (24-bit significand, gradual underflow, smallest unit `2 ^ (-149)`).  Infinities,
  NaNs and overflow past the largest finite value are not represented, and Lean's
  `x / 0 = 0` stands where C divides by zero; no statement below rests on the value
  of such a quotient.
* Unsigned 16-bit integers are natural numbers, reduced modulo `2 ^ 16` where the
  C code narrows.
* Register contents are natural numbers; the bus transfers that fetch and store
  them are outside the embedding, so each function takes the register values it
  reads as arguments and returns the value it computes for writing.
* For the range cache of the AD7156 the device structure is a record of the two
  cached ranges and of the register file of the chip; the functions with the suffix
  `_dev` are the C functions of the same name acting on it, built on the value-level
  functions above them.
-/

/-! ## Single-precision arithmetic -/

/-- Nearest integer to a rational, a tie going to the even neighbour. -/
def roundHalfEven (y : ℚ) : ℤ :=
  if y - ⌊y⌋ < 1 / 2 then ⌊y⌋
  else if 1 / 2 < y - ⌊y⌋ then ⌊y⌋ + 1
  else if ⌊y⌋ % 2 = 0 then ⌊y⌋ else ⌊y⌋ + 1

/-- Exponent of the unit in the last place that binary32 uses around `x`:
`floor (log2 |x|) - 23`, and `-149` throughout the subnormal range. -/
def ulpExp (x : ℚ) : ℤ := max (Int.log 2 |x| - 23) (-149)

/-- IEEE-754 binary32 rounding to nearest, ties to even. -/
def f32 (x : ℚ) : ℚ := roundHalfEven (x / 2 ^ ulpExp x) * 2 ^ ulpExp x

/-- Integer part of a rational, rounding toward zero, as a C float-to-integer
conversion does. -/
def truncToInt (x : ℚ) : ℤ := if 0 ≤ x then ⌊x⌋ else ⌈x⌉

/-- The C conversion `(unsigned short) x` / `(uint16_t) x` of a float: the value is
truncated toward zero.  C defines the result only for `-1 < x < 65536`; outside that
range the embedding keeps the low 16 bits of the truncated integer, which is what a
conversion through a wider integer register leaves. -/
def f32_to_u16 (x : ℚ) : ℕ := (truncToInt x % 65536).toNat

/-! ## AD7156 capacitance converter (`AD7156.c`) -/

/-- The value `pFdata` returned by `AD7156_ReadChannelCapacitance`, as a function of
the cached channel range `chRange` and of the sample `rawCh` that
`AD7156_ReadChannelData` delivered: the sample is saturated to `[0x3000, 0xD000]`, then
`pFdata = (((rawCh) - 0x3000) * chRange) / 0xA000`. -/
def AD7156_ReadChannelCapacitance (chRange : ℚ) (rawCh : ℕ) : ℚ :=
  let rawCh :=
    if rawCh < 0x3000 then 0x3000
    else if rawCh > 0xD000 then 0xD000
    else rawCh
  f32 (f32 (f32 (((rawCh : ℤ) - 0x3000 : ℤ) : ℚ) * chRange) / 0xA000)

/-- The value `pFdata` returned by `AD7156_WaitReadChannelCapacitance`; `rawCh` is the
sample delivered by `AD7156_WaitReadChannelData` once the ready flag has cleared.  The
body repeats that of `AD7156_ReadChannelCapacitance`. -/
def AD7156_WaitReadChannelCapacitance (chRange : ℚ) (rawCh : ℕ) : ℚ :=
  let rawCh :=
    if rawCh < 0x3000 then 0x3000
    else if rawCh > 0xD000 then 0xD000
    else rawCh
  f32 (f32 (f32 (((rawCh : ℤ) - 0x3000 : ℤ) : ℚ) * chRange) / 0xA000)

/-- The code `rawThr` that `AD7156_SetThreshold` passes to `AD7156_SetRegisterValue`;
`range` is the value returned by `AD7156_GetRange` for the channel:
`rawThr = (unsigned short)((pFthr * 0xA000 / range) + 0x3000)`, then the two
comparisons against `0xD000` and `0x3000`. -/
def AD7156_SetThreshold (range pFthr : ℚ) : ℕ :=
  let rawThr := f32_to_u16 (f32 (f32 (f32 (pFthr * 0xA000) / range) + 0x3000))
  if rawThr > 0xD000 then 0xD000
  else if rawThr < 0x3000 then 0x3000
  else rawThr

/-- The code `rawSensitivity` that `AD7156_SetSensitivity` passes to
`AD7156_SetRegisterValue`; `range` is the cached range of the channel:
`rawSensitivity = (unsigned short)(pFsensitivity * 0xA00 / range)` followed by
`rawSensitivity = (rawSensitivity << 4) & 0x0FF0`. -/
def AD7156_SetSensitivity (range pFsensitivity : ℚ) : ℕ :=
  let rawSensitivity := f32_to_u16 (f32 (f32 (pFsensitivity * 0xA00) / range))
  ((rawSensitivity <<< 4) &&& 0x0FF0) % 65536

/-! ## AD7124 IIO application (`iio_ad7124.c`) -/

/-- Modelled from the spec: return code `FAILURE` of `error.h`, a header that is not
among the sources. -/
def FAILURE : ℤ := -1

/-- Modelled from the spec: field macro of `ad7124.h` (not among the sources) for the
power mode, bits 7:6 of the ADC control register. -/
def AD7124_ADC_CTRL_REG_POWER_MODE (x : ℕ) : ℕ := (x &&& 0x3) <<< 6

/-- Modelled from the spec: field macro of `ad7124.h` (not among the sources) for the
filter select, bits 23:21 of a filter register. -/
def AD7124_FILT_REG_FILTER (x : ℕ) : ℕ := (x &&& 0x7) <<< 21

/-- Modelled from the spec: field macro of `ad7124.h` (not among the sources) for the
post-filter sub-field, bits 19:17 of a filter register. -/
def AD7124_FILT_REG_POST_FILTER (x : ℕ) : ℕ := (x &&& 0x7) <<< 17

/-- Modelled from the spec: flag macro of `ad7124.h` (not among the sources) for
single-cycle settling, bit 16 of a filter register. -/
def AD7124_FILT_REG_SINGLE_CYCLE : ℕ := 1 <<< 16

/-- Modelled from the spec: field macro of `ad7124.h` (not among the sources) for the
rate divider `fs_value`, bits 10:0 of a filter register. -/
def AD7124_FILT_REG_FS (x : ℕ) : ℕ := (x &&& 0x7FF) <<< 0

/-- The clock selection of `ad7124_8pmdz_fclk_logic_get` on the value `adc_control`
read from the ADC control register: `.ok f_clk`, or `.error FAILURE` from the
`default` label. -/
def ad7124_8pmdz_fclk_logic_get (adc_control : ℕ) : Except ℤ ℚ :=
  match (adc_control &&& AD7124_ADC_CTRL_REG_POWER_MODE 3) >>> 6 with
  | 0 => .ok 76800
  | 1 => .ok 153600
  | 2 => .ok 614400
  | 3 => .ok 614400
  | _ => .error FAILURE

/-- The coefficient `*flt_coff` left by `ad7124_8pmdz_fltcoff_logic_get` on the values
`adc_control` and `filter` read from the ADC control register and from the channel's
filter register; the products are stored in a `uint16_t`. -/
def ad7124_8pmdz_fltcoff_logic_get (adc_control filter : ℕ) : ℕ :=
  let power_mode := ((adc_control &&& AD7124_ADC_CTRL_REG_POWER_MODE 3) >>> 6) % 65536
  let flt_coff := 32
  let flt_coff :=
    if filter &&& AD7124_FILT_REG_SINGLE_CYCLE ≠ 0 then
      let flt_coff :=
        if filter &&& AD7124_FILT_REG_FILTER 7 = AD7124_FILT_REG_FILTER 0 then
          flt_coff * 4 % 65536
        else flt_coff
      if filter &&& AD7124_FILT_REG_FILTER 7 = AD7124_FILT_REG_FILTER 2 then
        flt_coff * 3 % 65536
      else flt_coff
    else flt_coff
  let flt_coff :=
    if filter &&& AD7124_FILT_REG_FILTER 7 = AD7124_FILT_REG_FILTER 4 then
      if power_mode = 0 then flt_coff * 11 % 65536 else flt_coff * 19 % 65536
    else flt_coff
  if filter &&& AD7124_FILT_REG_FILTER 7 = AD7124_FILT_REG_FILTER 5 then
    if power_mode = 0 then flt_coff * 10 % 65536 else flt_coff * 18 % 65536
  else flt_coff

/-- The float returned by `_ad7124_iio_get_odr` on the register values `adc_control`
and `filter`.  An error code is returned converted to float, as the C function does.
The result is `none` when the divisor `flt_coff * fs_value` is zero: C then divides a
positive clock by zero and the quotient is not a finite number. -/
def _ad7124_iio_get_odr (adc_control filter : ℕ) : Option ℚ :=
  match ad7124_8pmdz_fclk_logic_get adc_control with
  | .error ret => some (f32 ret)
  | .ok f_clk =>
    let fs_value := (filter &&& AD7124_FILT_REG_FS 0x7FF) % 65536
    if filter &&& AD7124_FILT_REG_FILTER 7 = AD7124_FILT_REG_FILTER 7 then
      match (filter &&& AD7124_FILT_REG_POST_FILTER 7) >>> 17 with
      | 2 => some (f32 (2727 / 100))
      | 3 => some 25
      | 5 => some 20
      | 6 => some (f32 (167 / 10))
      | _ => some (f32 FAILURE)
    else
      let flt_coff := ad7124_8pmdz_fltcoff_logic_get adc_control filter
      if flt_coff * fs_value = 0 then none
      else some (f32 (f_clk / f32 ((flt_coff * fs_value : ℕ) : ℚ)))

/-- The rate divider `fs_value` that `_ad7124_iio_set_odr` merges into the filter
register for the requested rate `odr`:
`fs_value = (uint16_t)(f_clk / (flt_coff * odr))`, then `0` is replaced by `1` and
anything above `2047` by `2047`.  An error code of the clock lookup is passed on. -/
def _ad7124_iio_set_odr (adc_control filter : ℕ) (odr : ℚ) : Except ℤ ℕ :=
  match ad7124_8pmdz_fclk_logic_get adc_control with
  | .error ret => .error ret
  | .ok f_clk =>
    let flt_coff := ad7124_8pmdz_fltcoff_logic_get adc_control filter
    let fs_value := f32_to_u16 (f32 (f_clk / f32 ((flt_coff : ℚ) * odr)))
    let fs_value := if fs_value = 0 then 1 else fs_value
    let fs_value := if fs_value > 2047 then 2047 else fs_value
    .ok fs_value

/-- The C conversion `(uint32_t) x` of a float: the value is truncated toward zero.  C
defines the result only for `-1 < x < 4294967296`; outside that range the embedding keeps
the low 32 bits of the truncated integer. -/
def f32_to_u32 (x : ℚ) : ℕ := (truncToInt x % 4294967296).toNat

/-- Modelled from the spec: error number `EINVAL` of the C library header `errno.h`,
which is not among the sources. -/
def EINVAL : ℤ := 22

/-- The `switch (value)` of `ad1724_iio_read_filter_3db` on the value `filter` read from
the channel's filter register, for the rate `odr` already converted to `uint32_t`:
`.ok value` with the cutoff `odr * 262 / 1000` or `odr * 230 / 1000` in 32-bit unsigned
arithmetic, or `.error (-EINVAL)` from the `default` label. -/
def ad1724_iio_read_filter_3db_value (filter odr : ℕ) : Except ℤ ℕ :=
  match (filter >>> 21) &&& 0x7 with
  | 0 => .ok (odr * 262 % 4294967296 / 1000)
  | 4 => .ok (odr * 262 % 4294967296 / 1000)
  | 2 => .ok (odr * 230 % 4294967296 / 1000)
  | 5 => .ok (odr * 230 % 4294967296 / 1000)
  | _ => .error (-EINVAL)

/-- The number printed by `ad1724_iio_read_filter_3db` on the register values
`adc_control` and `filter`, or its error code: `odr = (uint32_t)_ad7124_iio_get_odr(...)`
followed by the `switch`.  Where the rate is not finite (zero divisor) C leaves the
conversion undefined and the embedding takes `odr = 0`. -/
def ad1724_iio_read_filter_3db (adc_control filter : ℕ) : Except ℤ ℕ :=
  let odr :=
    match _ad7124_iio_get_odr adc_control filter with
    | some x => f32_to_u32 x
    | none => 0
  ad1724_iio_read_filter_3db_value filter odr

/-- The pair `(new_filter, new_odr)` chosen by `ad1724_iio_write_filter_3db` for the
cutoff `freq` parsed from the input buffer; `new_filter` goes into the filter-select field
and `new_odr` is handed to `_ad7124_iio_set_odr`.  The products are 32-bit unsigned. -/
def ad1724_iio_write_filter_3db (freq : ℕ) : ℕ × ℕ :=
  let sinc4_3db_odr := freq * 1000 % 4294967296 / 230
  let sinc3_3db_odr := freq * 1000 % 4294967296 / 262
  if sinc4_3db_odr > sinc3_3db_odr then (2, sinc3_3db_odr)
  else (0, sinc4_3db_odr)

/-- The value `lsb_val` that `ad1724_iio_read_scale_chan` prints, for the value `cfg` read
from the channel's configuration register (`vref_mv = 2500`, `adc_bit_no = 24`).  The
quotient is formed in double precision, where a division of 2500 by a power of two is
exact, and then stored in a float. -/
def ad1724_iio_read_scale_chan (cfg : ℕ) : ℚ :=
  let pga_bits := cfg &&& 0x7
  let bipolar := (cfg >>> 11) &&& 0x1
  if bipolar ≠ 0 then f32 (2500 / 2 ^ ((24 + pga_bits - 1) % 4294967296))
  else f32 (2500 / 2 ^ ((24 + pga_bits) % 4294967296))

/-- The C conversion `(int) d` of a double holding an integer: C defines it for
`-2 ^ 31 - 1 < d < 2 ^ 31`; outside that range the embedding wraps to 32 bits. -/
def f64_to_i32 (d : ℤ) : ℤ := (d + 2147483648) % 4294967296 - 2147483648

/-- The distance `new_diff = abs(pow(2, i) - new_gain)` computed in the loop body of
`ad7124_iio_find_closest_gain`: the difference is exact in double precision, `abs` is the
integer function of `stdlib.h`, and its result is stored in a `uint32_t`. -/
def ad7124_iio_find_closest_gain_diff (new_gain i : ℕ) : ℕ :=
  (f64_to_i32 ((2 : ℤ) ^ i - new_gain)).natAbs % 4294967296

/-- One pass through the loop body of `ad7124_iio_find_closest_gain` for the index `i`;
the state is `(old_diff, new_pga_bits)`, with `none` for the still uninitialised
`new_pga_bits`. -/
def ad7124_iio_find_closest_gain_step (new_gain : ℕ) (st : ℕ × Option ℕ) (i : ℕ) :
    ℕ × Option ℕ :=
  let new_diff := ad7124_iio_find_closest_gain_diff new_gain i
  if new_diff < st.1 then (new_diff, some i) else st

/-- The value returned by `ad7124_iio_find_closest_gain`: the loop runs `i = 0, ..., 7`
from `old_diff = 0xFFFFFFFF`; `none` would be the return of the uninitialised variable. -/
def ad7124_iio_find_closest_gain (new_gain : ℕ) : Option ℕ :=
  ((List.range 8).foldl (ad7124_iio_find_closest_gain_step new_gain) (0xFFFFFFFF, none)).2

/-- The PGA setting that `ad1724_iio_change_scale_chan` hands to `AD7124_CFG_REG_PGA` for
the requested scale `new_scale`, on the value `cfg` read from the channel's configuration
register: `new_gain = lsb_val / new_scale` is a float quotient converted to `uint32_t`,
then routed through `ad7124_iio_find_closest_gain`. -/
def ad1724_iio_change_scale_chan (cfg : ℕ) (new_scale : ℚ) : Option ℕ :=
  let bipolar := (cfg >>> 11) &&& 0x1
  let lsb_val :=
    if bipolar ≠ 0 then f32 (2500 / 2 ^ ((24 - 1 : ℕ) % 4294967296))
    else f32 (2500 / 2 ^ (24 % 4294967296))
  let new_gain := f32_to_u32 (f32 (lsb_val / new_scale))
  ad7124_iio_find_closest_gain new_gain

/-- Modelled from the spec: field macro of `AD7156.h` (not among the sources) for the
range selector, bits 7:6 of a channel setup register. -/
def AD7156_CH1_SETUP_RANGE (x : ℕ) : ℕ := (x &&& 0x3) <<< 6

/-- Modelled from the spec: range code of `AD7156.h` (not among the sources) for 2 pF. -/
def AD7156_CDC_RANGE_2_PF : ℕ := 0

/-- Modelled from the spec: range code of `AD7156.h` (not among the sources) for 0.5 pF. -/
def AD7156_CDC_RANGE_0_5_PF : ℕ := 1

/-- Modelled from the spec: range code of `AD7156.h` (not among the sources) for 1 pF. -/
def AD7156_CDC_RANGE_1_PF : ℕ := 2

/-- Modelled from the spec: range code of `AD7156.h` (not among the sources) for 4 pF. -/
def AD7156_CDC_RANGE_4_PF : ℕ := 3

/-- The range returned by `AD7156_GetRange`, which is also the value it stores in the
channel's cache, as a function of the byte `setupReg` read from the channel's setup
register.  `range` starts at 0 and stays there when no `case` matches. -/
def AD7156_GetRange (setupReg : ℕ) : ℚ :=
  let setupReg := ((setupReg &&& AD7156_CH1_SETUP_RANGE 0x3) >>> 6) % 256
  if setupReg = AD7156_CDC_RANGE_2_PF then 2
  else if setupReg = AD7156_CDC_RANGE_0_5_PF then 1 / 2
  else if setupReg = AD7156_CDC_RANGE_1_PF then 1
  else if setupReg = AD7156_CDC_RANGE_4_PF then 4
  else 0

/-! ## AD7156 device session: registers and range cache (`AD7156.c`) -/

/-- Modelled from the spec: register address of `AD7156.h` (not among the sources), high
byte of the channel 1 data. -/
def AD7156_REG_CH1_DATA_H : ℕ := 0x01

/-- Modelled from the spec: register address of `AD7156.h` (not among the sources), high
byte of the channel 2 data. -/
def AD7156_REG_CH2_DATA_H : ℕ := 0x03

/-- Modelled from the spec: register address of `AD7156.h` (not among the sources), high
byte of the channel 1 sensitivity / threshold. -/
def AD7156_REG_CH1_SENS_THRSH_H : ℕ := 0x09

/-- Modelled from the spec: register address of `AD7156.h` (not among the sources),
channel 1 setup. -/
def AD7156_REG_CH1_SETUP : ℕ := 0x0B

/-- Modelled from the spec: register address of `AD7156.h` (not among the sources), high
byte of the channel 2 sensitivity / threshold. -/
def AD7156_REG_CH2_SENS_THRSH_H : ℕ := 0x0C

/-- Modelled from the spec: register address of `AD7156.h` (not among the sources),
channel 2 setup. -/
def AD7156_REG_CH2_SETUP : ℕ := 0x0E

/-- The device structure `ad7156_dev`: the two cached ranges, and in place of the bus
descriptor the register file of the chip behind it, one byte per address. -/
structure ad7156_dev where
  /-- Register contents of the chip, by address. -/
  regs : ℕ → ℕ
  /-- Cached range of channel 1, in pF. -/
  ad7156Channel1Range : ℚ
  /-- Cached range of channel 2, in pF. -/
  ad7156Channel2Range : ℚ

/-- Modelled from the spec: the bus write of `platform_drivers.h` (not among the
sources) as the chip sees it.  The first byte sent is the address pointer, the bytes after
it go to consecutive registers; a later read returns the last value written. -/
def i2c_write_registers (regs : ℕ → ℕ) (data : List ℕ) : ℕ → ℕ :=
  match data with
  | [] => regs
  | pointer :: bytes =>
    fun r => if pointer ≤ r ∧ r < pointer + bytes.length then bytes.getD (r - pointer) 0
      else regs r

/-- `AD7156_GetRegisterValue`: burst read of `bytesNumber` registers from
`registerAddress` on; the bytes land in `unsigned char` cells. -/
def AD7156_GetRegisterValue (dev : ad7156_dev) (registerAddress bytesNumber : ℕ) : List ℕ :=
  (List.range bytesNumber).map fun k => dev.regs (registerAddress + k) % 256

/-- `AD7156_SetRegisterValue`: the buffer is `{address, value >> 8, 0}`, the cell
`dataBuffer[bytesNumber]` is overwritten with the low byte, and `bytesNumber + 1` bytes
are sent.  The callers pass `bytesNumber` 1 or 2. -/
def AD7156_SetRegisterValue (dev : ad7156_dev) (registerValue registerAddress bytesNumber : ℕ) :
    ad7156_dev :=
  let dataBuffer := [registerAddress, (registerValue >>> 8) % 256, 0]
  let dataBuffer := dataBuffer.set bytesNumber (registerValue &&& 0x00FF)
  { dev with regs := i2c_write_registers dev.regs (dataBuffer.take (bytesNumber + 1)) }

/-- The function `AD7156_GetRange` on the device: it reads the setup register of the
channel, decodes the range (see the value-level `AD7156_GetRange`), stores it in the cache
of channel 1 when `channel == 1` and of channel 2 otherwise, and returns it. -/
def AD7156_GetRange_dev (dev : ad7156_dev) (channel : ℕ) : ad7156_dev × ℚ :=
  let regAddress := if channel = 1 then AD7156_REG_CH1_SETUP else AD7156_REG_CH2_SETUP
  let setupReg := (AD7156_GetRegisterValue dev regAddress 1).headD 0
  let range := AD7156_GetRange setupReg
  if channel = 1 then ({ dev with ad7156Channel1Range := range }, range)
  else ({ dev with ad7156Channel2Range := range }, range)

/-- The function `AD7156_SetRange`: read-modify-write of the range bits of the channel's
setup register, then the cache of the channel is assigned the result of
`AD7156_GetRange`, which reads the register back. -/
def AD7156_SetRange (dev : ad7156_dev) (channel range : ℕ) : ad7156_dev :=
  let regAddress := if channel = 1 then AD7156_REG_CH1_SETUP else AD7156_REG_CH2_SETUP
  let oldSetupReg := (AD7156_GetRegisterValue dev regAddress 1).headD 0
  let oldSetupReg := (oldSetupReg &&& (4294967295 - AD7156_CH1_SETUP_RANGE 0x3)) % 256
  let newSetupReg := (oldSetupReg ||| AD7156_CH1_SETUP_RANGE range) % 256
  let dev := AD7156_SetRegisterValue dev newSetupReg regAddress 1
  if channel = 1 then
    { (AD7156_GetRange_dev dev channel).1 with
      ad7156Channel1Range := (AD7156_GetRange_dev dev channel).2 }
  else
    { (AD7156_GetRange_dev dev channel).1 with
      ad7156Channel2Range := (AD7156_GetRange_dev dev channel).2 }

/-- The function `AD7156_SetSensitivity` on the device: the code computed from the cached
range of the channel (see the value-level `AD7156_SetSensitivity`) is written as two bytes
to the sensitivity register of the channel. -/
def AD7156_SetSensitivity_dev (dev : ad7156_dev) (channel : ℕ) (pFsensitivity : ℚ) :
    ad7156_dev :=
  let sensitivityRegAddr :=
    if channel = 1 then AD7156_REG_CH1_SENS_THRSH_H else AD7156_REG_CH2_SENS_THRSH_H
  let range := if channel = 1 then dev.ad7156Channel1Range else dev.ad7156Channel2Range
  let rawSensitivity := AD7156_SetSensitivity range pFsensitivity
  AD7156_SetRegisterValue dev rawSensitivity sensitivityRegAddr 2

/-- `AD7156_ReadChannelData`: two data bytes of the channel, combined as
`(regData[0] << 8) + regData[1]` in an `unsigned short`. -/
def AD7156_ReadChannelData (dev : ad7156_dev) (channel : ℕ) : ℕ :=
  let chAddress := if channel = 1 then AD7156_REG_CH1_DATA_H else AD7156_REG_CH2_DATA_H
  let regData := AD7156_GetRegisterValue dev chAddress 2
  ((regData.getD 0 0 <<< 8) + regData.getD 1 0) % 65536

/-- The function `AD7156_ReadChannelCapacitance` on the device: the sample of the channel
is converted with the cached range of the channel (see the value-level
`AD7156_ReadChannelCapacitance`). -/
def AD7156_ReadChannelCapacitance_dev (dev : ad7156_dev) (channel : ℕ) : ℚ :=
  let chRange := if channel = 1 then dev.ad7156Channel1Range else dev.ad7156Channel2Range
  let rawCh := AD7156_ReadChannelData dev channel
  AD7156_ReadChannelCapacitance chRange rawCh

/-! ## Tables of the specification, for comparison with the code -/

/-- The coefficient table of the specification's `filter_coefficient`, written from its
words: 128 with single-cycle settling and filter select 0, 96 with single-cycle settling
and filter select 2, 352 (low power, power mode 0) or 608 for filter select 4, 320 (low
power) or 576 for filter select 5, and 32 in every other case. -/
def filter_coefficient_table (filter_select power_mode : ℕ) (single_cycle : Bool) : ℕ :=
  if single_cycle = true ∧ filter_select = 0 then 128
  else if single_cycle = true ∧ filter_select = 2 then 96
  else if filter_select = 4 then (if power_mode = 0 then 352 else 608)
  else if filter_select = 5 then (if power_mode = 0 then 320 else 576)
  else 32

/-! ## Properties of the single-precision rounding -/

theorem roundHalfEven_abs_sub_le (y : ℚ) : |(roundHalfEven y : ℚ) - y| ≤ 1 / 2 := by
  have h1 := Int.floor_le y
  have h2 := Int.lt_floor_add_one y
  unfold roundHalfEven
  rw [abs_le]
  split_ifs <;> push_cast <;> constructor <;> linarith

theorem roundHalfEven_eq_of_lt (y : ℚ) (n : ℤ) (h1 : (n : ℚ) - 1 / 2 < y)
    (h2 : y < n + 1 / 2) : roundHalfEven y = n := by
  rcases lt_or_le y n with h | h
  · have hf : ⌊y⌋ = n - 1 := by
      rw [Int.floor_eq_iff]; push_cast; constructor <;> linarith
    unfold roundHalfEven
    rw [hf]; push_cast
    rw [if_neg (by linarith), if_pos (by linarith)]; ring
  · have hf : ⌊y⌋ = n := by
      rw [Int.floor_eq_iff]; constructor <;> linarith
    unfold roundHalfEven
    rw [hf, if_pos (by linarith)]

theorem roundHalfEven_intCast (n : ℤ) : roundHalfEven (n : ℚ) = n :=
  roundHalfEven_eq_of_lt _ n (by linarith) (by linarith)

theorem le_roundHalfEven (y : ℚ) (n : ℤ) (h : (n : ℚ) ≤ y) : n ≤ roundHalfEven y := by
  have hf : n ≤ ⌊y⌋ := Int.le_floor.mpr h
  unfold roundHalfEven
  split_ifs <;> omega

theorem roundHalfEven_le (y : ℚ) (n : ℤ) (h : y ≤ (n : ℚ)) : roundHalfEven y ≤ n := by
  rcases eq_or_lt_of_le h with h | h
  · rw [h, roundHalfEven_intCast]
  · have hf : ⌊y⌋ < n := Int.floor_lt.mpr h
    unfold roundHalfEven
    split_ifs <;> omega

theorem ulp_pos (x : ℚ) : (0 : ℚ) < 2 ^ ulpExp x := by positivity

theorem log2_eq_of_bounds (x : ℚ) (e : ℤ) (h1 : (2 : ℚ) ^ e ≤ x) (h2 : x < 2 ^ (e + 1)) :
    Int.log 2 x = e := by
  have hx : 0 < x := lt_of_lt_of_le (by positivity) h1
  have a : e ≤ Int.log 2 x := (Int.zpow_le_iff_le_log (by norm_num) hx).mp (by exact_mod_cast h1)
  have b : Int.log 2 x < e + 1 := (Int.lt_zpow_iff_log_lt (by norm_num) hx).mp (by exact_mod_cast h2)
  omega

theorem f32_eq_of_bounds (x : ℚ) (e n : ℤ) (he : -126 ≤ e) (h1 : (2 : ℚ) ^ e ≤ |x|)
    (h2 : |x| < 2 ^ (e + 1)) (h3 : ((n : ℚ) - 1 / 2) * 2 ^ (e - 23) < x)
    (h4 : x < ((n : ℚ) + 1 / 2) * 2 ^ (e - 23)) : f32 x = n * 2 ^ (e - 23) := by
  have hu : ulpExp x = e - 23 := by
    unfold ulpExp
    rw [log2_eq_of_bounds |x| e h1 h2]
    omega
  have hp : (0 : ℚ) < 2 ^ (e - 23) := by positivity
  unfold f32
  rw [hu, roundHalfEven_eq_of_lt _ n]
  · rw [lt_div_iff₀ hp]; exact h3
  · rw [div_lt_iff₀ hp]; exact h4

theorem f32_zero : f32 0 = 0 := by
  unfold f32
  simp [roundHalfEven]

theorem ulpExp_le_of_abs_lt (x : ℚ) (k : ℤ) (hx : x ≠ 0) (hk : -149 ≤ k)
    (h : |x| < 2 ^ (k + 24)) : ulpExp x ≤ k := by
  unfold ulpExp
  have : Int.log 2 |x| < k + 24 :=
    (Int.lt_zpow_iff_log_lt (by norm_num) (abs_pos.mpr hx)).mp (by exact_mod_cast h)
  omega

theorem f32_of_grid (x : ℚ) (n : ℤ) (h : x = n * 2 ^ ulpExp x) : f32 x = x := by
  have hp := ulp_pos x
  have : x / 2 ^ ulpExp x = n := by
    rw [div_eq_iff hp.ne']; exact h
  unfold f32
  rw [this, roundHalfEven_intCast]
  exact h.symm

theorem zpow_split (u k : ℤ) (h : u ≤ k) :
    (2 : ℚ) ^ k = ((2 ^ (k - u).toNat : ℤ) : ℚ) * 2 ^ u := by
  have h1 : k = ((k - u).toNat : ℤ) + u := by omega
  conv_lhs => rw [h1]
  rw [zpow_add₀ (by norm_num), zpow_natCast]
  push_cast
  ring

theorem f32_exact (m k : ℤ) (hm : |m| < 2 ^ 24) (hk : -149 ≤ k) :
    f32 (m * 2 ^ k) = m * 2 ^ k := by
  rcases eq_or_ne m 0 with h0 | h0
  · simp [h0, f32_zero]
  have hx : (m : ℚ) * 2 ^ k ≠ 0 := by
    have : (m : ℚ) ≠ 0 := by exact_mod_cast h0
    positivity
  have hlt : |(m : ℚ) * 2 ^ k| < 2 ^ (k + 24) := by
    rw [abs_mul, abs_of_pos (show (0 : ℚ) < 2 ^ k by positivity), zpow_add₀ (by norm_num),
      mul_comm]
    have : |(m : ℚ)| < 2 ^ (24 : ℤ) := by
      have h24 : (2 : ℚ) ^ (24 : ℤ) = 16777216 := by norm_num
      have : ((|m| : ℤ) : ℚ) < 16777216 := by exact_mod_cast hm
      rw [h24]
      simpa using this
    exact mul_lt_mul_of_pos_left this (by positivity)
  have hu := ulpExp_le_of_abs_lt _ k hx hk hlt
  apply f32_of_grid _ (m * 2 ^ (k - ulpExp (m * 2 ^ k)).toNat)
  conv_lhs => rw [zpow_split _ k hu]
  push_cast
  ring

theorem f32_intCast (n : ℤ) (hn : |n| < 2 ^ 24) : f32 (n : ℚ) = n := by
  have := f32_exact n 0 hn (by norm_num)
  simpa using this

theorem ulpExp_neg (x : ℚ) : ulpExp (-x) = ulpExp x := by
  unfold ulpExp
  rw [abs_neg]

theorem f32_on_grid (a : ℚ) (ha : f32 a = a) :
    a = (roundHalfEven (a / 2 ^ ulpExp a) : ℚ) * 2 ^ ulpExp a := by
  unfold f32 at ha
  exact ha.symm

theorem f32_neg_of_exact (b : ℚ) (hb : f32 b = b) : f32 (-b) = -b := by
  apply f32_of_grid _ (-roundHalfEven (b / 2 ^ ulpExp b))
  rw [ulpExp_neg]
  push_cast
  rw [neg_mul, ← f32_on_grid b hb]

theorem le_f32_of_grid (x : ℚ) (n : ℤ) (h : (n : ℚ) * 2 ^ ulpExp x ≤ x) :
    (n : ℚ) * 2 ^ ulpExp x ≤ f32 x := by
  have hp := ulp_pos x
  unfold f32
  have : n ≤ roundHalfEven (x / 2 ^ ulpExp x) :=
    le_roundHalfEven _ n (by rw [le_div_iff₀ hp]; exact h)
  have : (n : ℚ) ≤ roundHalfEven (x / 2 ^ ulpExp x) := by exact_mod_cast this
  exact mul_le_mul_of_nonneg_right this hp.le

theorem exists_grid_between (a x : ℚ) (ha : f32 a = a) (h : a ≤ x) :
    ∃ n : ℤ, a ≤ (n : ℚ) * 2 ^ ulpExp x ∧ (n : ℚ) * 2 ^ ulpExp x ≤ x := by
  by_cases huv : ulpExp x ≤ ulpExp a
  · refine ⟨roundHalfEven (a / 2 ^ ulpExp a) * 2 ^ (ulpExp a - ulpExp x).toNat, ?_⟩
    have e : a = ((roundHalfEven (a / 2 ^ ulpExp a) * 2 ^ (ulpExp a - ulpExp x).toNat : ℤ) : ℚ)
        * 2 ^ ulpExp x := by
      have e0 := f32_on_grid a ha
      generalize roundHalfEven (a / 2 ^ ulpExp a) = r at e0 ⊢
      rw [zpow_split _ _ huv] at e0
      calc a = _ := e0
        _ = _ := by push_cast; ring
    rw [← e]
    exact ⟨le_refl a, h⟩
  · have hu : ulpExp x = Int.log 2 |x| - 23 ∧ Int.log 2 |a| < Int.log 2 |x| := by
      unfold ulpExp at huv ⊢
      omega
    rcases lt_trichotomy x 0 with hx | hx | hx
    · exfalso
      have h1 : |x| ≤ |a| := by
        rw [abs_of_neg hx, abs_of_neg (lt_of_le_of_lt h hx)]; linarith
      have := Int.log_mono_right (b := 2) (abs_pos.mpr hx.ne) h1
      omega
    · exact ⟨0, by simpa [hx] using h, by simp [hx]⟩
    · refine ⟨2 ^ 23, ?_⟩
      have e : (((2 : ℤ) ^ 23 : ℤ) : ℚ) * 2 ^ ulpExp x = 2 ^ Int.log 2 |x| := by
        rw [hu.1, zpow_sub₀ (by norm_num)]
        norm_num
        ring
      rw [e]
      have h1 : (2 : ℚ) ^ Int.log 2 |x| ≤ |x| := by
        have := Int.zpow_log_le_self (b := 2) (r := |x|) (by norm_num) (abs_pos.mpr hx.ne')
        exact_mod_cast this
      refine ⟨?_, h1.trans (abs_of_pos hx).le⟩
      have h2 : |a| < (2 : ℚ) ^ (Int.log 2 |a| + 1) := by
        have := Int.lt_zpow_succ_log_self (b := 2) (by norm_num) |a|
        exact_mod_cast this
      have h3 : (2 : ℚ) ^ (Int.log 2 |a| + 1) ≤ 2 ^ Int.log 2 |x| :=
        zpow_le_zpow_right₀ (by norm_num) (by omega)
      exact le_trans (le_abs_self a) (le_trans h2.le h3)

/-- Rounding never crosses a binary32 value lying below the argument. -/
theorem le_f32 (a x : ℚ) (ha : f32 a = a) (h : a ≤ x) : a ≤ f32 x := by
  obtain ⟨n, h1, h2⟩ := exists_grid_between a x ha h
  exact le_trans h1 (le_f32_of_grid x n h2)

theorem f32_le_of_grid (x : ℚ) (n : ℤ) (h : x ≤ (n : ℚ) * 2 ^ ulpExp x) :
    f32 x ≤ (n : ℚ) * 2 ^ ulpExp x := by
  have hp := ulp_pos x
  unfold f32
  have : roundHalfEven (x / 2 ^ ulpExp x) ≤ n :=
    roundHalfEven_le _ n (by rw [div_le_iff₀ hp]; exact h)
  have : (roundHalfEven (x / 2 ^ ulpExp x) : ℚ) ≤ n := by exact_mod_cast this
  exact mul_le_mul_of_nonneg_right this hp.le

/-- Rounding never crosses a binary32 value lying above the argument. -/
theorem f32_le (b x : ℚ) (hb : f32 b = b) (h : x ≤ b) : f32 x ≤ b := by
  obtain ⟨n, h1, h2⟩ := exists_grid_between (-b) (-x) (f32_neg_of_exact b hb) (by linarith)
  rw [ulpExp_neg] at h1 h2
  have h3 : x ≤ ((-n : ℤ) : ℚ) * 2 ^ ulpExp x := by push_cast; linarith
  have h4 := f32_le_of_grid x (-n) h3
  push_cast at h4
  linarith

theorem f32_abs_sub_le (x : ℚ) : |f32 x - x| ≤ 2 ^ ulpExp x / 2 := by
  have hp := ulp_pos x
  have h := roundHalfEven_abs_sub_le (x / 2 ^ ulpExp x)
  have e : f32 x - x = ((roundHalfEven (x / 2 ^ ulpExp x) : ℚ) - x / 2 ^ ulpExp x)
      * 2 ^ ulpExp x := by
    unfold f32
    field_simp
  rw [e, abs_mul, abs_of_pos hp]
  calc |(roundHalfEven (x / 2 ^ ulpExp x) : ℚ) - x / 2 ^ ulpExp x| * 2 ^ ulpExp x
      ≤ 1 / 2 * 2 ^ ulpExp x := mul_le_mul_of_nonneg_right h hp.le
    _ = 2 ^ ulpExp x / 2 := by ring

/-- Relative error of binary32 rounding in the normal range: half a unit in the last place. -/
theorem f32_rel_err (x : ℚ) (hx : (2 : ℚ) ^ (-126 : ℤ) ≤ |x|) : |f32 x - x| ≤ |x| / 2 ^ 24 := by
  have hpos : 0 < |x| := lt_of_lt_of_le (by positivity) hx
  have hL : -126 ≤ Int.log 2 |x| :=
    (Int.zpow_le_iff_le_log (by norm_num) hpos).mp (by exact_mod_cast hx)
  have hu : ulpExp x = Int.log 2 |x| - 23 := by unfold ulpExp; omega
  have h1 : (2 : ℚ) ^ Int.log 2 |x| ≤ |x| := by
    have := Int.zpow_log_le_self (b := 2) (r := |x|) (by norm_num) hpos
    exact_mod_cast this
  have h := f32_abs_sub_le x
  rw [hu, zpow_sub₀ (by norm_num)] at h
  calc |f32 x - x| ≤ 2 ^ Int.log 2 |x| / 2 ^ (23 : ℤ) / 2 := h
    _ = 2 ^ Int.log 2 |x| / 2 ^ 24 := by norm_num; ring
    _ ≤ |x| / 2 ^ 24 := by gcongr

theorem f32_nonneg (x : ℚ) (h : 0 ≤ x) : 0 ≤ f32 x := le_f32 0 x f32_zero h

/-- Absolute error of one rounding for an argument bounded by `B`. -/
theorem f32_err_le (x B : ℚ) (h : |x| ≤ B) (hB : 1 / 2 ^ 126 ≤ B) :
    |f32 x - x| ≤ B / 2 ^ 24 := by
  have hB0 : 0 ≤ B := (abs_nonneg x).trans h
  rcases eq_or_ne x 0 with h0 | h0
  · rw [h0, f32_zero]
    simp only [sub_zero, abs_zero]
    positivity
  rcases le_or_lt ((2 : ℚ) ^ (-126 : ℤ)) |x| with h1 | h1
  · exact (f32_rel_err x h1).trans (by gcongr)
  · have hu : ulpExp x = -149 := by
      unfold ulpExp
      have : Int.log 2 |x| < -126 :=
        (Int.lt_zpow_iff_log_lt (by norm_num) (abs_pos.mpr h0)).mp (by exact_mod_cast h1)
      omega
    have h2 := f32_abs_sub_le x
    rw [hu] at h2
    have h3 : (2 : ℚ) ^ (-149 : ℤ) / 2 = 1 / 2 ^ 126 / 2 ^ 24 := by
      rw [zpow_neg, zpow_ofNat]; norm_num
    rw [h3] at h2
    exact h2.trans (by gcongr)

/-- Evaluation of the rounding at a given point of the normal range. -/
theorem f32_eval (x v : ℚ) (e n : ℤ) (he : -126 ≤ e) (h1 : (2 : ℚ) ^ e ≤ |x|)
    (h2 : |x| < 2 ^ (e + 1)) (h3 : ((n : ℚ) - 1 / 2) * 2 ^ (e - 23) < x)
    (h4 : x < ((n : ℚ) + 1 / 2) * 2 ^ (e - 23)) (hv : v = n * 2 ^ (e - 23)) : f32 x = v := by
  rw [hv]
  exact f32_eq_of_bounds x e n he h1 h2 h3 h4

theorem f32_to_u16_of_nonneg (x : ℚ) (h0 : 0 ≤ x) (h1 : x < 65536) :
    f32_to_u16 x = ⌊x⌋.toNat := by
  unfold f32_to_u16 truncToInt
  rw [if_pos h0]
  have a : 0 ≤ ⌊x⌋ := Int.floor_nonneg.mpr h0
  have b : ⌊x⌋ < 65536 := Int.floor_lt.mpr (by exact_mod_cast h1)
  rw [Int.emod_eq_of_lt a b]

theorem f32_ofNat_cast (n : ℕ) (hn : n < 2 ^ 24) : f32 (n : ℚ) = n := by
  have := f32_intCast (n : ℤ) (by rw [abs_lt]; omega)
  simpa using this

theorem f32_to_u16_intCast (n : ℤ) : f32_to_u16 (n : ℚ) = (n % 65536).toNat := by
  unfold f32_to_u16 truncToInt
  split_ifs <;> simp

theorem f32_2500_div_two_pow (k : ℕ) (hk : k ≤ 100) :
    f32 (2500 / 2 ^ k) = 2500 / 2 ^ k := by
  have h := f32_exact 625 (2 - (k : ℤ)) (by norm_num) (by omega)
  have e : ((625 : ℤ) : ℚ) * 2 ^ (2 - (k : ℤ)) = 2500 / 2 ^ k := by
    rw [zpow_sub₀ (by norm_num), zpow_natCast]
    norm_num
    ring
  rw [e] at h
  exact h

theorem f32_to_u32_natCast (n : ℕ) (hn : n < 4294967296) : f32_to_u32 (n : ℚ) = n := by
  unfold f32_to_u32 truncToInt
  rw [if_pos (by positivity)]
  have : ⌊(n : ℚ)⌋ = (n : ℤ) := by exact_mod_cast Int.floor_intCast (n : ℤ)
  rw [this]
  omega

theorem f32_failure : f32 ((FAILURE : ℤ) : ℚ) = ((FAILURE : ℤ) : ℚ) :=
  f32_intCast FAILURE (by decide)

/-! ## Lemmas on the conversions -/

theorem AD7156_ReadChannelCapacitance_eq (chRange : ℚ) (rawCh : ℕ) :
    AD7156_ReadChannelCapacitance chRange rawCh =
      f32 (f32 ((((max 0x3000 (min rawCh 0xD000) : ℕ) : ℚ) - 0x3000) * chRange) / 0xA000) := by
  have hc : (if rawCh < 0x3000 then 0x3000 else if rawCh > 0xD000 then 0xD000 else rawCh) =
      max 0x3000 (min rawCh 0xD000) := by
    split_ifs <;> omega
  unfold AD7156_ReadChannelCapacitance
  simp only [hc]
  have hb : |((max 0x3000 (min rawCh 0xD000) : ℕ) : ℤ) - 0x3000| < 2 ^ 24 := by
    rw [abs_lt]; omega
  rw [f32_intCast _ hb]
  push_cast
  rfl

/-- Accumulated rounding error of decoding a code offset `k` and encoding it again. -/
theorem AD7156_roundtrip_sum_near (r k : ℚ) (hr : r = 1 / 2 ∨ r = 1 ∨ r = 2 ∨ r = 4)
    (hk0 : 0 ≤ k) (hk1 : k ≤ 40960) :
    |f32 (f32 (f32 (f32 (f32 (k * r) / 0xA000) * 0xA000) / r) + 0x3000) - (k + 0x3000)|
      ≤ 1 / 2 := by
  have h0 := f32_err_le (k * r) 163840
    (by rw [abs_le]; rcases hr with rfl | rfl | rfl | rfl <;> constructor <;> linarith)
    (by norm_num)
  generalize f32 (k * r) = a at h0 ⊢
  rw [abs_le] at h0
  have h1 := f32_err_le (a / 0xA000) 5
    (by rw [abs_le]; rcases hr with rfl | rfl | rfl | rfl <;> constructor <;> linarith)
    (by norm_num)
  generalize f32 (a / 0xA000) = p at h1 ⊢
  rw [abs_le] at h1
  have h2 := f32_err_le (p * 0xA000) 200000
    (by rw [abs_le]; rcases hr with rfl | rfl | rfl | rfl <;> constructor <;> linarith)
    (by norm_num)
  generalize f32 (p * 0xA000) = b at h2 ⊢
  rw [abs_le] at h2
  have h3 : |f32 (b / r) - b / r| ≤ 400000 / 2 ^ 24 ∧ |b / r - k| ≤ 1 / 8 := by
    rcases hr with rfl | rfl | rfl | rfl
    all_goals
      refine ⟨f32_err_le _ 400000 ?_ (by norm_num), ?_⟩
      all_goals
        rw [abs_le]
        constructor <;> linarith
  generalize f32 (b / r) = c at h3 ⊢
  obtain ⟨h3, h3b⟩ := h3
  rw [abs_le] at h3 h3b
  have h4 := f32_err_le (c + 0x3000) 60000
    (by rw [abs_le]; constructor <;> linarith) (by norm_num)
  rw [abs_le] at h4 ⊢
  constructor <;> linarith

theorem ad7124_fclk_of_power_mode_1 (adc_control : ℕ)
    (hp : (adc_control &&& AD7124_ADC_CTRL_REG_POWER_MODE 3) >>> 6 = 1) :
    ad7124_8pmdz_fclk_logic_get adc_control = .ok 153600 := by
  unfold ad7124_8pmdz_fclk_logic_get
  rw [hp]

theorem ad7124_fltcoff_of_sinc4 (adc_control filter : ℕ)
    (hf : filter &&& AD7124_FILT_REG_FILTER 7 = AD7124_FILT_REG_FILTER 0)
    (hs : filter &&& AD7124_FILT_REG_SINGLE_CYCLE = 0) :
    ad7124_8pmdz_fltcoff_logic_get adc_control filter = 32 := by
  have hf0 : filter &&& 14680064 = 0 := by simpa [AD7124_FILT_REG_FILTER] using hf
  unfold ad7124_8pmdz_fltcoff_logic_get
  simp [hf0, hs, AD7124_FILT_REG_FILTER]

/-- Accumulated rounding error of reading a rate back from `fs_value = F` and dividing
the clock by it again, for the clock 153600 Hz and the coefficient 32. -/
theorem ad7124_odr_roundtrip_near (F : ℚ) (h1 : 1 ≤ F) (h2 : F ≤ 2047) :
    |f32 (153600 / f32 (32 * f32 (153600 / (32 * F)))) - F| ≤ 1 / 2 := by
  have hF : 0 < F := by linarith
  have hq : 153600 / (32 * F) * F = 4800 := by field_simp; ring
  have hq0 : (2 : ℚ) < 153600 / (32 * F) := by
    rw [lt_div_iff₀ (by positivity)]; linarith
  -- the rate read back
  have hA := f32_rel_err (153600 / (32 * F))
    (by rw [abs_of_pos (by linarith)]; exact le_trans (by norm_num) hq0.le)
  rw [abs_of_pos (show (0 : ℚ) < 153600 / (32 * F) by linarith), abs_le] at hA
  generalize 153600 / (32 * F) = q at hq hq0 hA ⊢
  generalize f32 q = odr at hA ⊢
  have hA1 := mul_le_mul_of_nonneg_right hA.1 hF.le
  have hA2 := mul_le_mul_of_nonneg_right hA.2 hF.le
  have hodr : 1 < odr := by linarith
  -- the product with the coefficient
  have hB := f32_rel_err (32 * odr)
    (by rw [abs_of_pos (by linarith)]; exact le_trans (by norm_num) (by linarith : (1 : ℚ) ≤ 32 * odr))
  rw [abs_of_pos (show (0 : ℚ) < 32 * odr by linarith), abs_le] at hB
  generalize f32 (32 * odr) = y at hB ⊢
  have hB1 := mul_le_mul_of_nonneg_right hB.1 hF.le
  have hB2 := mul_le_mul_of_nonneg_right hB.2 hF.le
  have hy : 0 < y := by linarith
  -- the quotient
  have hz : 153600 / y * y = 153600 := by field_simp
  have hz0 : 0 < 153600 / y := by positivity
  generalize 153600 / y = z0 at hz hz0 ⊢
  have e1 : 4800 - 4800 / 2 ^ 24 ≤ odr * F := by linarith
  have e2 : odr * F ≤ 4800 + 4800 / 2 ^ 24 := by linarith
  have e3 : 153599 ≤ y * F := by linarith
  have e4 : y * F ≤ 153601 := by linarith
  have hv1 : z0 * 153599 ≤ z0 * (y * F) := mul_le_mul_of_nonneg_left e3 hz0.le
  have hv2 : z0 * (y * F) ≤ z0 * 153601 := mul_le_mul_of_nonneg_left e4 hz0.le
  have hzF : z0 * (y * F) = 153600 * F := by rw [← mul_assoc, hz]
  have hz1 : (2 : ℚ) ^ (-126 : ℤ) ≤ |z0| := by
    rw [abs_of_pos hz0]
    have : (1 : ℚ) / 2 ≤ z0 := by linarith
    exact le_trans (by norm_num) this
  have hC := f32_rel_err z0 hz1
  rw [abs_of_pos hz0, abs_le] at hC
  generalize f32 z0 = z at hC ⊢
  rw [abs_le]
  constructor <;> linarith

theorem ad7124_get_odr_of_sinc4 (adc_control filter : ℕ)
    (hp : (adc_control &&& AD7124_ADC_CTRL_REG_POWER_MODE 3) >>> 6 = 1)
    (hf : filter &&& AD7124_FILT_REG_FILTER 7 = AD7124_FILT_REG_FILTER 0)
    (hs : filter &&& AD7124_FILT_REG_SINGLE_CYCLE = 0)
    (h1 : 1 ≤ filter &&& AD7124_FILT_REG_FS 0x7FF) :
    _ad7124_iio_get_odr adc_control filter =
      some (f32 (153600 / (32 * ((filter &&& AD7124_FILT_REG_FS 0x7FF : ℕ) : ℚ)))) := by
  have hle : filter &&& AD7124_FILT_REG_FS 0x7FF ≤ 2047 := by
    have : AD7124_FILT_REG_FS 0x7FF = 2047 := by decide
    rw [this]
    exact Nat.and_le_right
  have hmod : (filter &&& AD7124_FILT_REG_FS 0x7FF) % 65536 = filter &&& AD7124_FILT_REG_FS 0x7FF :=
    Nat.mod_eq_of_lt (by omega)
  have hne : AD7124_FILT_REG_FILTER 0 ≠ AD7124_FILT_REG_FILTER 7 := by decide
  unfold _ad7124_iio_get_odr
  rw [ad7124_fclk_of_power_mode_1 _ hp, ad7124_fltcoff_of_sinc4 _ _ hf hs]
  simp only [hf, hmod, if_neg hne]
  rw [if_neg (by omega), f32_ofNat_cast _ (by norm_num; omega)]
  push_cast
  rfl

theorem ad7124_set_odr_of_sinc4 (adc_control filter : ℕ) (odr : ℚ)
    (hp : (adc_control &&& AD7124_ADC_CTRL_REG_POWER_MODE 3) >>> 6 = 1)
    (hf : filter &&& AD7124_FILT_REG_FILTER 7 = AD7124_FILT_REG_FILTER 0)
    (hs : filter &&& AD7124_FILT_REG_SINGLE_CYCLE = 0) :
    _ad7124_iio_set_odr adc_control filter odr =
      .ok (if (if f32_to_u16 (f32 (153600 / f32 (32 * odr))) = 0 then 1
                else f32_to_u16 (f32 (153600 / f32 (32 * odr)))) > 2047 then 2047
           else (if f32_to_u16 (f32 (153600 / f32 (32 * odr))) = 0 then 1
                else f32_to_u16 (f32 (153600 / f32 (32 * odr))))) := by
  unfold _ad7124_iio_set_odr
  rw [ad7124_fclk_of_power_mode_1 _ hp, ad7124_fltcoff_of_sinc4 _ _ hf hs]
  push_cast
  rfl

theorem and_filter_mask (v : ℕ) : v &&& 14680064 = ((v >>> 21) &&& 7) <<< 21 := by
  have h : (14680064 : ℕ) = 7 <<< 21 := by decide
  rw [h]
  apply Nat.eq_of_testBit_eq
  intro i
  simp only [Nat.testBit_and, Nat.testBit_shiftLeft, Nat.testBit_shiftRight]
  by_cases hi : 21 ≤ i
  · simp [hi, Nat.add_sub_cancel' hi]
  · simp [hi]

theorem filter_select_eq_iff (v k : ℕ) (hk : k < 8) :
    v &&& AD7124_FILT_REG_FILTER 7 = AD7124_FILT_REG_FILTER k ↔ (v >>> 21) &&& 7 = k := by
  have h7 : AD7124_FILT_REG_FILTER 7 = 14680064 := by decide
  have hk7 : k &&& 7 = k := by
    interval_cases k <;> decide
  have hlt : (v >>> 21) &&& 7 < 8 := Nat.lt_succ_of_le Nat.and_le_right
  unfold AD7124_FILT_REG_FILTER at *
  rw [h7, and_filter_mask, hk7, Nat.shiftLeft_eq, Nat.shiftLeft_eq]
  omega

theorem ad7124_power_mode_lt (adc_control : ℕ) :
    (adc_control &&& AD7124_ADC_CTRL_REG_POWER_MODE 3) >>> 6 < 4 := by
  have h : AD7124_ADC_CTRL_REG_POWER_MODE 3 = 192 := by decide
  have hle : adc_control &&& 192 ≤ 192 := Nat.and_le_right
  rw [h, Nat.shiftRight_eq_div_pow]
  omega

theorem ad7124_fclk_cases (adc_control : ℕ) :
    ad7124_8pmdz_fclk_logic_get adc_control = .ok 76800 ∨
    ad7124_8pmdz_fclk_logic_get adc_control = .ok 153600 ∨
    ad7124_8pmdz_fclk_logic_get adc_control = .ok 614400 := by
  have hpm := ad7124_power_mode_lt adc_control
  unfold ad7124_8pmdz_fclk_logic_get
  generalize (adc_control &&& AD7124_ADC_CTRL_REG_POWER_MODE 3) >>> 6 = pm at hpm ⊢
  interval_cases pm <;> simp

theorem ad7124_fltcoff_bounds (adc_control filter : ℕ) :
    32 ≤ ad7124_8pmdz_fltcoff_logic_get adc_control filter ∧
    ad7124_8pmdz_fltcoff_logic_get adc_control filter ≤ 608 := by
  have hpm := ad7124_power_mode_lt adc_control
  have hmod : ((adc_control &&& AD7124_ADC_CTRL_REG_POWER_MODE 3) >>> 6) % 65536 =
      (adc_control &&& AD7124_ADC_CTRL_REG_POWER_MODE 3) >>> 6 := Nat.mod_eq_of_lt (by omega)
  have hlt : (filter >>> 21) &&& 7 < 8 := Nat.lt_succ_of_le Nat.and_le_right
  unfold ad7124_8pmdz_fltcoff_logic_get
  simp only [hmod, filter_select_eq_iff filter 0 (by norm_num),
    filter_select_eq_iff filter 2 (by norm_num), filter_select_eq_iff filter 4 (by norm_num),
    filter_select_eq_iff filter 5 (by norm_num)]
  generalize (filter >>> 21) &&& 7 = fsel at hlt ⊢
  generalize (adc_control &&& AD7124_ADC_CTRL_REG_POWER_MODE 3) >>> 6 = pm at hpm ⊢
  by_cases hsc : filter &&& AD7124_FILT_REG_SINGLE_CYCLE = 0
  · interval_cases fsel <;> interval_cases pm <;> simp [hsc]
  · interval_cases fsel <;> interval_cases pm <;> simp [hsc]

theorem ad7124_set_odr_eq (adc_control filter : ℕ) (odr f_clk : ℚ)
    (hclk : ad7124_8pmdz_fclk_logic_get adc_control = .ok f_clk) :
    _ad7124_iio_set_odr adc_control filter odr =
      .ok (if (if f32_to_u16 (f32 (f_clk /
                  f32 ((ad7124_8pmdz_fltcoff_logic_get adc_control filter : ℚ) * odr))) = 0
                then 1
                else f32_to_u16 (f32 (f_clk /
                  f32 ((ad7124_8pmdz_fltcoff_logic_get adc_control filter : ℚ) * odr)))) > 2047
           then 2047
           else (if f32_to_u16 (f32 (f_clk /
                  f32 ((ad7124_8pmdz_fltcoff_logic_get adc_control filter : ℚ) * odr))) = 0
                then 1
                else f32_to_u16 (f32 (f_clk /
                  f32 ((ad7124_8pmdz_fltcoff_logic_get adc_control filter : ℚ) * odr))))) := by
  unfold _ad7124_iio_set_odr
  rw [hclk]

theorem shl4_and_mask (x : ℕ) : (x <<< 4) &&& 0x0FF0 = (x % 256) * 16 := by
  have h : (0x0FF0 : ℕ) = (2 ^ 8 - 1) <<< 4 := by decide
  have h2 : (x % 256) * 16 = (x % 2 ^ 8) <<< 4 := by rw [Nat.shiftLeft_eq]; norm_num
  rw [h, h2]
  apply Nat.eq_of_testBit_eq
  intro i
  simp only [Nat.testBit_and, Nat.testBit_shiftLeft, Nat.testBit_two_pow_sub_one,
    Nat.testBit_mod_two_pow]
  by_cases hi : 4 ≤ i <;> by_cases hj : i - 4 < 8 <;> simp [hi, hj]

theorem and_shiftLeft_mask (v m s : ℕ) : v &&& (m <<< s) = ((v >>> s) &&& m) <<< s := by
  apply Nat.eq_of_testBit_eq
  intro i
  simp only [Nat.testBit_and, Nat.testBit_shiftLeft, Nat.testBit_shiftRight]
  by_cases hi : s ≤ i
  · simp [hi, Nat.add_sub_cancel' hi]
  · simp [hi]

theorem and_shiftLeft_mask_shiftRight (v m s : ℕ) :
    (v &&& (m <<< s)) >>> s = (v >>> s) &&& m := by
  rw [and_shiftLeft_mask, Nat.shiftLeft_shiftRight]

theorem AD7156_range_field (setupReg : ℕ) :
    ((setupReg &&& AD7156_CH1_SETUP_RANGE 0x3) >>> 6) % 256 = (setupReg >>> 6) &&& 0x3 := by
  have h : AD7156_CH1_SETUP_RANGE 0x3 = 3 <<< 6 := by decide
  have hlt : (setupReg >>> 6) &&& 3 ≤ 3 := Nat.and_le_right
  rw [h, and_shiftLeft_mask_shiftRight]
  omega

theorem ad7124_read_scale_chan_eq (c : ℕ) :
    ad1724_iio_read_scale_chan c =
      (2500 : ℚ) / (2 : ℚ) ^ (24 + (c &&& 0x7) - (if (c >>> 11) &&& 0x1 ≠ 0 then 1 else 0)) := by
  have hc : c &&& 7 ≤ 7 := Nat.and_le_right
  unfold ad1724_iio_read_scale_chan
  by_cases hb : (c >>> 11) &&& 0x1 = 0
  · simp only [hb, ne_eq, not_true_eq_false, if_false]
    rw [Nat.mod_eq_of_lt (by omega), f32_2500_div_two_pow _ (by omega)]
    rfl
  · simp only [hb, ne_eq, not_false_eq_true, if_true]
    rw [Nat.mod_eq_of_lt (by omega), f32_2500_div_two_pow _ (by omega)]

theorem ad7124_find_closest_gain_diff_lt (g i : ℕ) :
    ad7124_iio_find_closest_gain_diff g i < 0xFFFFFFFF := by
  unfold ad7124_iio_find_closest_gain_diff f64_to_i32
  omega

/-- Loop invariant of `ad7124_iio_find_closest_gain`: after the indices below `n` the
state holds the smallest distance seen and the first index that attains it. -/
theorem ad7124_find_closest_gain_invariant (g n : ℕ) (hn : 1 ≤ n) :
    ∃ i, (List.range n).foldl (ad7124_iio_find_closest_gain_step g) (0xFFFFFFFF, none) =
        (ad7124_iio_find_closest_gain_diff g i, some i) ∧ i < n ∧
      (∀ j, j < n → ad7124_iio_find_closest_gain_diff g i ≤
        ad7124_iio_find_closest_gain_diff g j) ∧
      (∀ j, j < n → ad7124_iio_find_closest_gain_diff g j =
        ad7124_iio_find_closest_gain_diff g i → i ≤ j) := by
  induction n, hn using Nat.le_induction with
  | base =>
    refine ⟨0, ?_, by norm_num, ?_, ?_⟩
    · have h := ad7124_find_closest_gain_diff_lt g 0
      simp [List.range_succ, ad7124_iio_find_closest_gain_step, h]
    · intro j hj
      have : j = 0 := by omega
      rw [this]
    · intro j _ _
      omega
  | succ n hn ih =>
    obtain ⟨i, hst, hi, hmin, hfirst⟩ := ih
    rw [List.range_succ, List.foldl_append, hst]
    simp only [List.foldl_cons, List.foldl_nil, ad7124_iio_find_closest_gain_step]
    by_cases hlt : ad7124_iio_find_closest_gain_diff g n < ad7124_iio_find_closest_gain_diff g i
    · rw [if_pos hlt]
      refine ⟨n, rfl, by omega, ?_, ?_⟩
      · intro j hj
        rcases Nat.lt_succ_iff_lt_or_eq.mp hj with h | h
        · have := hmin j h
          omega
        · rw [h]
      · intro j hj he
        rcases Nat.lt_succ_iff_lt_or_eq.mp hj with h | h
        · have := hmin j h
          omega
        · omega
    · rw [if_neg hlt]
      refine ⟨i, rfl, by omega, ?_, ?_⟩
      · intro j hj
        rcases Nat.lt_succ_iff_lt_or_eq.mp hj with h | h
        · exact hmin j h
        · rw [h]; omega
      · intro j hj he
        rcases Nat.lt_succ_iff_lt_or_eq.mp hj with h | h
        · exact hfirst j h he
        · omega

theorem ad7124_find_closest_gain_diff_eq (g i : ℕ) (hg : g < 2 ^ 31) (hi : i < 8) :
    (ad7124_iio_find_closest_gain_diff g i : ℤ) = |(2 : ℤ) ^ i - g| := by
  have hpow : (2 : ℤ) ^ i ≤ 128 ∧ 1 ≤ (2 : ℤ) ^ i := by
    interval_cases i <;> norm_num
  unfold ad7124_iio_find_closest_gain_diff f64_to_i32
  rw [Int.abs_eq_natAbs]
  omega

theorem ad7124_change_scale_chan_of_two_pow (cfg2 p b : ℕ) (hp : p ≤ 7) (hb : b ≤ 1)
    (hb2 : (cfg2 >>> 11) &&& 0x1 ≠ 0 ↔ b = 1) :
    ad1724_iio_change_scale_chan cfg2 ((2500 : ℚ) / (2 : ℚ) ^ (24 + p - b)) = some p := by
  have hq : ∀ k : ℕ, k ≤ 100 → (2500 : ℚ) / 2 ^ k / (2500 / 2 ^ (k + p)) = ((2 ^ p : ℕ) : ℚ) := by
    intro k _
    rw [pow_add]
    push_cast
    field_simp
    ring
  have hpow : 2 ^ p < 2 ^ 24 := Nat.pow_lt_pow_right (by norm_num) (by omega)
  have hfind : ad7124_iio_find_closest_gain (2 ^ p) = some p := by
    interval_cases p <;> decide
  unfold ad1724_iio_change_scale_chan
  by_cases h : (cfg2 >>> 11) &&& 0x1 = 0
  · have hb0 : b = 0 := by
      have := hb2.not.mp (by simpa using h)
      omega
    subst hb0
    simp only [h, ne_eq, not_true_eq_false, if_false]
    have e1 : (24 : ℕ) % 4294967296 = 24 := by norm_num
    rw [e1, f32_2500_div_two_pow 24 (by norm_num)]
    have e2 : 24 + p - 0 = 24 + p := by omega
    rw [e2, hq 24 (by norm_num), f32_ofNat_cast _ hpow, f32_to_u32_natCast _ (by omega), hfind]
  · have hb1 : b = 1 := hb2.mp h
    subst hb1
    simp only [h, ne_eq, not_false_eq_true, if_true]
    have e1 : (24 - 1 : ℕ) % 4294967296 = 23 := by norm_num
    rw [e1, f32_2500_div_two_pow 23 (by norm_num)]
    have e2 : 24 + p - 1 = 23 + p := by omega
    rw [e2, hq 23 (by norm_num), f32_ofNat_cast _ hpow, f32_to_u32_natCast _ (by omega), hfind]

theorem ad7124_read_filter_3db_value_cases (filter odr : ℕ) :
    ((filter >>> 21) &&& 0x7 = 0 ∨ (filter >>> 21) &&& 0x7 = 4 →
      ad1724_iio_read_filter_3db_value filter odr = .ok (odr * 262 % 4294967296 / 1000)) ∧
    ((filter >>> 21) &&& 0x7 = 2 ∨ (filter >>> 21) &&& 0x7 = 5 →
      ad1724_iio_read_filter_3db_value filter odr = .ok (odr * 230 % 4294967296 / 1000)) ∧
    (¬((filter >>> 21) &&& 0x7 = 0 ∨ (filter >>> 21) &&& 0x7 = 2 ∨
        (filter >>> 21) &&& 0x7 = 4 ∨ (filter >>> 21) &&& 0x7 = 5) →
      ad1724_iio_read_filter_3db_value filter odr = .error (-EINVAL)) := by
  have hlt : (filter >>> 21) &&& 7 ≤ 7 := Nat.and_le_right
  unfold ad1724_iio_read_filter_3db_value
  generalize (filter >>> 21) &&& 0x7 = fsel at hlt ⊢
  interval_cases fsel <;> simp

theorem floor_mul_ratio (odr c : ℕ) :
    ⌊(odr : ℚ) * ((c : ℚ) / 1000)⌋₊ = odr * c / 1000 := by
  have e : (odr : ℚ) * ((c : ℚ) / 1000) = ((odr * c : ℕ) : ℚ) / ((1000 : ℕ) : ℚ) := by
    push_cast
    ring
  rw [e, Nat.floor_div_eq_div]

theorem ad7124_post_filter_field (filter : ℕ) :
    (filter &&& AD7124_FILT_REG_POST_FILTER 7) >>> 17 = (filter >>> 17) &&& 0x7 := by
  have h : AD7124_FILT_REG_POST_FILTER 7 = 7 <<< 17 := by decide
  rw [h, and_shiftLeft_mask_shiftRight]

/-- The power-mode field read by `ad7124_8pmdz_fclk_logic_get` is bits 7:6 of the ADC
control register. -/
theorem ad7124_power_mode_field (adc_control : ℕ) :
    (adc_control &&& AD7124_ADC_CTRL_REG_POWER_MODE 3) >>> 6 = (adc_control >>> 6) &&& 3 := by
  have h : AD7124_ADC_CTRL_REG_POWER_MODE 3 = 3 <<< 6 := by decide
  rw [h, and_shiftLeft_mask_shiftRight]

/-- In integer division `x / 230 > x / 262` for every positive multiple `x` of 1000. -/
theorem div_230_gt_div_262 (f : ℕ) (h1 : 1 ≤ f) : f * 1000 / 230 > f * 1000 / 262 := by
  rcases Nat.lt_or_ge f 3 with h3 | h3
  · interval_cases f <;> decide
  · have h230 : f * 1000 < 230 * (f * 1000 / 230 + 1) := Nat.lt_mul_div_succ _ (by norm_num)
    have h262 : 262 * (f * 1000 / 262) ≤ f * 1000 := Nat.mul_div_le _ _
    by_contra hle
    push_neg at hle
    generalize f * 1000 / 230 = a at *
    generalize f * 1000 / 262 = b at *
    linarith

/-- The code of `AD7156_SetSensitivity` in terms of the truncated quotient, for a
non-negative request and a positive range. -/
theorem AD7156_SetSensitivity_mod (range pFsensitivity : ℚ) (h0 : 0 ≤ pFsensitivity)
    (hr : 0 < range) :
    AD7156_SetSensitivity range pFsensitivity =
      (⌊f32 (f32 (pFsensitivity * 0xA00) / range)⌋.toNat % 256) * 16 := by
  have hq : 0 ≤ f32 (f32 (pFsensitivity * 0xA00) / range) :=
    f32_nonneg _ (div_nonneg (f32_nonneg _ (by positivity)) hr.le)
  unfold AD7156_SetSensitivity f32_to_u16 truncToInt
  generalize f32 (f32 (pFsensitivity * 0xA00) / range) = q at hq ⊢
  rw [if_pos hq]
  have hf : 0 ≤ ⌊q⌋ := Int.floor_nonneg.mpr hq
  simp only [shl4_and_mask]
  omega

/-- A tenth of a range `2 ^ k` pF, in single precision, and the quotient computed from it
by `AD7156_SetSensitivity`: exactly 256. -/
theorem AD7156_tenth_of_range (k : ℤ) (h1 : -1 ≤ k) (h2 : k ≤ 2) :
    f32 ((2 : ℚ) ^ k / 10) = 13421773 * 2 ^ (k - 27) ∧
    f32 (f32 (f32 ((2 : ℚ) ^ k / 10) * 0xA00) / 2 ^ k) = 256 := by
  have e1 : f32 ((2 : ℚ) ^ k / 10) = 13421773 * 2 ^ (k - 27) := by
    interval_cases k
    · apply f32_eval _ _ (-5) 13421773 <;> norm_num [abs_of_pos]
    · apply f32_eval _ _ (-4) 13421773 <;> norm_num [abs_of_pos]
    · apply f32_eval _ _ (-3) 13421773 <;> norm_num [abs_of_pos]
    · apply f32_eval _ _ (-2) 13421773 <;> norm_num [abs_of_pos]
  refine ⟨e1, ?_⟩
  rw [e1]
  have e2 : f32 ((13421773 : ℚ) * 2 ^ (k - 27) * 0xA00) = 256 * 2 ^ k := by
    interval_cases k
    · apply f32_eval _ _ 7 8388608 <;> norm_num [abs_of_pos]
    · apply f32_eval _ _ 8 8388608 <;> norm_num [abs_of_pos]
    · apply f32_eval _ _ 9 8388608 <;> norm_num [abs_of_pos]
    · apply f32_eval _ _ 10 8388608 <;> norm_num [abs_of_pos]
  rw [e2]
  have e3 : (256 : ℚ) * 2 ^ k / 2 ^ k = ((256 : ℤ) : ℚ) := by
    have : (2 : ℚ) ^ k ≠ 0 := by positivity
    field_simp
  rw [e3, f32_intCast _ (by norm_num)]
  norm_num

/-- The rate divider read by `_ad7124_iio_get_odr` is at most 2047. -/
theorem ad7124_fs_value_le (filter : ℕ) :
    (filter &&& AD7124_FILT_REG_FS 0x7FF) % 65536 ≤ 2047 := by
  have h : AD7124_FILT_REG_FS 0x7FF = 2047 := by decide
  have hle : filter &&& 2047 ≤ 2047 := Nat.and_le_right
  rw [h]
  omega

/-- The range decoded by `AD7156_GetRange` depends on bits 7:6 of the register only. -/
theorem AD7156_GetRange_congr (a b : ℕ) (h : (a >>> 6) &&& 0x3 = (b >>> 6) &&& 0x3) :
    AD7156_GetRange a = AD7156_GetRange b := by
  unfold AD7156_GetRange
  simp only [AD7156_range_field, h]

/-- Reading a register into an `unsigned char` keeps bits 7:6. -/
theorem AD7156_GetRange_mod (a : ℕ) : AD7156_GetRange (a % 256) = AD7156_GetRange a := by
  apply AD7156_GetRange_congr
  have h3 : ∀ x : ℕ, x &&& 3 = x % 4 := fun x => Nat.and_pow_two_sub_one_eq_mod x 2
  rw [h3, h3, Nat.shiftRight_eq_div_pow, Nat.shiftRight_eq_div_pow]
  omega

/-- Clearing bits 7:6 of a byte with the 32-bit complement of the range mask. -/
theorem and_not_range_mask (o : ℕ) (ho : o < 256) : o &&& 4294967103 = o % 64 := by
  have h63 : o % 64 = o &&& 63 := (Nat.and_pow_two_sub_one_eq_mod o 6).symm
  rw [h63]
  apply Nat.eq_of_testBit_eq
  intro i
  simp only [Nat.testBit_and]
  rcases Nat.lt_or_ge i 8 with hi | hi
  · have hb : Nat.testBit 4294967103 i = Nat.testBit 63 i := by
      interval_cases i <;> decide
    rw [hb]
  · have hlt : o < 2 ^ i :=
      lt_of_lt_of_le ho (Nat.pow_le_pow_right (by norm_num : 0 < 2) hi)
    simp [Nat.testBit_lt_two_pow hlt]

/-- The read-modify-write of `AD7156_SetRange` on a register byte: bits 7:6 of the new
byte are the low two bits of the requested range, bits 5:0 are those of the old byte. -/
theorem AD7156_SetRange_byte (old range : ℕ) :
    ((((old % 256 &&& (4294967295 - AD7156_CH1_SETUP_RANGE 0x3)) % 256 |||
        AD7156_CH1_SETUP_RANGE range) % 256) >>> 6) &&& 0x3 = range &&& 0x3 ∧
    (((old % 256 &&& (4294967295 - AD7156_CH1_SETUP_RANGE 0x3)) % 256 |||
        AD7156_CH1_SETUP_RANGE range) % 256) % 64 = old % 64 := by
  have ho : old % 256 < 256 := Nat.mod_lt _ (by norm_num)
  have hk : range &&& 3 < 4 := Nat.lt_succ_of_le Nat.and_le_right
  have hmask : 4294967295 - AD7156_CH1_SETUP_RANGE 0x3 = 4294967103 := by decide
  have h3 : ∀ x : ℕ, x &&& 3 = x % 4 := fun x => Nat.and_pow_two_sub_one_eq_mod x 2
  have hr : old % 256 % 64 < 2 ^ 6 := Nat.mod_lt _ (by norm_num)
  have hor : old % 256 % 64 % 256 ||| (range &&& 3) <<< 6 =
      (range &&& 3) <<< 6 + old % 256 % 64 := by
    rw [Nat.mod_eq_of_lt (by omega), Nat.lor_comm, Nat.shiftLeft_eq, Nat.mul_comm]
    exact (Nat.mul_add_lt_is_or hr _).symm
  rw [hmask, and_not_range_mask _ ho]
  unfold AD7156_CH1_SETUP_RANGE
  rw [hor, h3 (_ >>> 6), Nat.shiftRight_eq_div_pow, Nat.shiftLeft_eq]
  generalize range &&& 3 = k at hk ⊢
  omega

/-- A one-byte read returns the register content, cut to a byte. -/
theorem AD7156_GetRegisterValue_one (dev : ad7156_dev) (a : ℕ) :
    (AD7156_GetRegisterValue dev a 1).headD 0 = dev.regs a % 256 := by
  simp [AD7156_GetRegisterValue, List.range_succ]

/-- A one-byte write stores the low byte of the value in the addressed register and
leaves the other registers and the cached ranges as they were. -/
theorem AD7156_SetRegisterValue_one (dev : ad7156_dev) (v a : ℕ) :
    (AD7156_SetRegisterValue dev v a 1).regs a = v &&& 0x00FF ∧
    (∀ r, r ≠ a → (AD7156_SetRegisterValue dev v a 1).regs r = dev.regs r) ∧
    (AD7156_SetRegisterValue dev v a 1).ad7156Channel1Range = dev.ad7156Channel1Range ∧
    (AD7156_SetRegisterValue dev v a 1).ad7156Channel2Range = dev.ad7156Channel2Range := by
  refine ⟨?_, ?_, rfl, rfl⟩
  · simp [AD7156_SetRegisterValue, i2c_write_registers]
  · intro r hr
    have h : ¬ (a ≤ r ∧ r < a + 1) := by omega
    simp [AD7156_SetRegisterValue, i2c_write_registers, h]

/-- The effect of `AD7156_GetRange` on the device: the registers are not written, the
range decoded from the setup register of the channel is returned and stored in the cache
of that channel, the cache of the other channel is kept. -/
theorem AD7156_GetRange_dev_eq (dev : ad7156_dev) (channel : ℕ) :
    (AD7156_GetRange_dev dev channel).2 =
      AD7156_GetRange
        (dev.regs (if channel = 1 then AD7156_REG_CH1_SETUP else AD7156_REG_CH2_SETUP)) ∧
    (AD7156_GetRange_dev dev channel).1.regs = dev.regs ∧
    (AD7156_GetRange_dev dev channel).1.ad7156Channel1Range =
      (if channel = 1 then (AD7156_GetRange_dev dev channel).2
        else dev.ad7156Channel1Range) ∧
    (AD7156_GetRange_dev dev channel).1.ad7156Channel2Range =
      (if channel = 1 then dev.ad7156Channel2Range
        else (AD7156_GetRange_dev dev channel).2) := by
  unfold AD7156_GetRange_dev
  simp only [AD7156_GetRegisterValue_one, AD7156_GetRange_mod]
  by_cases h : channel = 1 <;> simp [h]

/-- The effect of `AD7156_SetRange` on the device. -/
theorem AD7156_SetRange_eq (dev : ad7156_dev) (channel range : ℕ) :
    ((AD7156_SetRange dev channel range).regs
        (if channel = 1 then AD7156_REG_CH1_SETUP else AD7156_REG_CH2_SETUP) >>> 6) &&& 0x3 =
      range &&& 0x3 ∧
    (AD7156_SetRange dev channel range).regs
        (if channel = 1 then AD7156_REG_CH1_SETUP else AD7156_REG_CH2_SETUP) % 64 =
      dev.regs (if channel = 1 then AD7156_REG_CH1_SETUP else AD7156_REG_CH2_SETUP) % 64 ∧
    (∀ r, r ≠ (if channel = 1 then AD7156_REG_CH1_SETUP else AD7156_REG_CH2_SETUP) →
      (AD7156_SetRange dev channel range).regs r = dev.regs r) ∧
    (AD7156_SetRange dev channel range).ad7156Channel1Range =
      (if channel = 1 then AD7156_GetRange ((AD7156_SetRange dev channel range).regs
          AD7156_REG_CH1_SETUP)
        else dev.ad7156Channel1Range) ∧
    (AD7156_SetRange dev channel range).ad7156Channel2Range =
      (if channel = 1 then dev.ad7156Channel2Range
        else AD7156_GetRange ((AD7156_SetRange dev channel range).regs
          AD7156_REG_CH2_SETUP)) := by
  have hb := AD7156_SetRange_byte
  have hff : ∀ x : ℕ, x % 256 &&& 0x00FF = x % 256 := by
    intro x
    have := Nat.and_pow_two_sub_one_eq_mod (x % 256) 8
    norm_num at this ⊢
    exact this
  by_cases h : channel = 1
  · subst h
    have hw := AD7156_SetRegisterValue_one dev
      (((dev.regs AD7156_REG_CH1_SETUP % 256 &&&
        (4294967295 - AD7156_CH1_SETUP_RANGE 0x3)) % 256 |||
        AD7156_CH1_SETUP_RANGE range) % 256) AD7156_REG_CH1_SETUP
    rw [hff] at hw
    have hregs : (AD7156_SetRange dev 1 range).regs =
        (AD7156_SetRegisterValue dev
          (((dev.regs AD7156_REG_CH1_SETUP % 256 &&&
            (4294967295 - AD7156_CH1_SETUP_RANGE 0x3)) % 256 |||
            AD7156_CH1_SETUP_RANGE range) % 256) AD7156_REG_CH1_SETUP 1).regs := by
      unfold AD7156_SetRange
      simp only [if_true, AD7156_GetRegisterValue_one, (AD7156_GetRange_dev_eq _ 1).2.1]
    simp only [if_true]
    refine ⟨?_, ?_, ?_, ?_, ?_⟩
    · rw [hregs, hw.1]; exact (hb _ _).1
    · rw [hregs, hw.1]; exact (hb _ _).2
    · intro r hr; rw [hregs]; exact hw.2.1 r hr
    · rw [hregs]
      unfold AD7156_SetRange
      simp only [if_true, AD7156_GetRegisterValue_one, (AD7156_GetRange_dev_eq _ 1).1]
    · unfold AD7156_SetRange
      simp only [if_true, AD7156_GetRegisterValue_one, (AD7156_GetRange_dev_eq _ 1).2.2.2]
      exact hw.2.2.2
  · have hw := AD7156_SetRegisterValue_one dev
      (((dev.regs AD7156_REG_CH2_SETUP % 256 &&&
        (4294967295 - AD7156_CH1_SETUP_RANGE 0x3)) % 256 |||
        AD7156_CH1_SETUP_RANGE range) % 256) AD7156_REG_CH2_SETUP
    rw [hff] at hw
    have hregs : (AD7156_SetRange dev channel range).regs =
        (AD7156_SetRegisterValue dev
          (((dev.regs AD7156_REG_CH2_SETUP % 256 &&&
            (4294967295 - AD7156_CH1_SETUP_RANGE 0x3)) % 256 |||
            AD7156_CH1_SETUP_RANGE range) % 256) AD7156_REG_CH2_SETUP 1).regs := by
      unfold AD7156_SetRange
      simp only [h, if_false, AD7156_GetRegisterValue_one, (AD7156_GetRange_dev_eq _ channel).2.1]
    simp only [h, if_false]
    refine ⟨?_, ?_, ?_, ?_, ?_⟩
    · rw [hregs, hw.1]; exact (hb _ _).1
    · rw [hregs, hw.1]; exact (hb _ _).2
    · intro r hr; rw [hregs]; exact hw.2.1 r hr
    · unfold AD7156_SetRange
      simp only [h, if_false, AD7156_GetRegisterValue_one,
        (AD7156_GetRange_dev_eq _ channel).2.2.1]
      exact hw.2.2.1
    · rw [hregs]
      unfold AD7156_SetRange
      simp only [h, if_false, AD7156_GetRegisterValue_one, (AD7156_GetRange_dev_eq _ channel).1]

/-- Claim C1.  For every range in {0.5, 1, 2, 4} and every raw code in
`[0x3000, 0xD000]`, the threshold code that `AD7156_SetThreshold` computes from the
capacitance that `AD7156_ReadChannelCapacitance` returns for that raw code, with the same
range, differs from the raw code by at most 1. -/
theorem AD7156_threshold_capacitance_roundtrip (range : ℚ) (rawCh : ℕ)
    (hr : range = 1 / 2 ∨ range = 1 ∨ range = 2 ∨ range = 4)
    (h0 : 0x3000 ≤ rawCh) (h1 : rawCh ≤ 0xD000) :
    |(AD7156_SetThreshold range (AD7156_ReadChannelCapacitance range rawCh) : ℤ) - rawCh|
      ≤ 1 := by
  rw [AD7156_ReadChannelCapacitance_eq]
  have hc : max 0x3000 (min rawCh 0xD000) = rawCh := by omega
  rw [hc]
  have hk0 : (0 : ℚ) ≤ (rawCh : ℚ) - 0x3000 := by
    have : (12288 : ℚ) ≤ rawCh := by exact_mod_cast h0
    linarith
  have hk1 : (rawCh : ℚ) - 0x3000 ≤ 40960 := by
    have : (rawCh : ℚ) ≤ 53248 := by exact_mod_cast h1
    linarith
  have hs := AD7156_roundtrip_sum_near range ((rawCh : ℚ) - 0x3000) hr hk0 hk1
  unfold AD7156_SetThreshold
  generalize f32 (f32 (f32 (f32 (f32 (((rawCh : ℚ) - 0x3000) * range) / 0xA000) * 0xA000)
    / range) + 0x3000) = s at hs ⊢
  rw [abs_le] at hs
  have hs0 : 0 ≤ s := by linarith
  have hs1 : s < 65536 := by linarith
  have hf1 : (rawCh : ℤ) - 1 ≤ ⌊s⌋ := Int.le_floor.mpr (by push_cast; linarith)
  have hf2 : ⌊s⌋ < (rawCh : ℤ) + 1 := Int.floor_lt.mpr (by push_cast; linarith)
  simp only [f32_to_u16_of_nonneg s hs0 hs1]
  rw [abs_le]
  split_ifs <;> omega

/-- Instance of C1 at range 1.0 and the mid-scale code `0x8000`. -/
theorem AD7156_threshold_capacitance_roundtrip_witness :
    ((1 : ℚ) = 1 / 2 ∨ (1 : ℚ) = 1 ∨ (1 : ℚ) = 2 ∨ (1 : ℚ) = 4) ∧
    0x3000 ≤ 0x8000 ∧ 0x8000 ≤ 0xD000 ∧
    |(AD7156_SetThreshold 1 (AD7156_ReadChannelCapacitance 1 0x8000) : ℤ) - (0x8000 : ℕ)| ≤ 1 :=
  ⟨by norm_num, by norm_num, by norm_num,
    AD7156_threshold_capacitance_roundtrip 1 0x8000 (by norm_num) (by norm_num) (by norm_num)⟩

/-- Claim C2, as amended.  For every raw code and every range the value returned by
`AD7156_ReadChannelCapacitance` is the single-precision evaluation of
`((clamp(raw, 0x3000, 0xD000) - 0x3000) * range) / 0xA000`; every raw code up to
`0x3000` decodes to `0`; for the ranges `0.5`, `1`, `2` and `4` every raw code from
`0xD000` on decodes to the range itself; and `AD7156_WaitReadChannelCapacitance`
applies the identical conversion. -/
theorem AD7156_ReadChannelCapacitance_saturates :
    (∀ (chRange : ℚ) (rawCh : ℕ), AD7156_ReadChannelCapacitance chRange rawCh =
      f32 (f32 ((((max 0x3000 (min rawCh 0xD000) : ℕ) : ℚ) - 0x3000) * chRange) / 0xA000)) ∧
    (∀ (chRange : ℚ) (rawCh : ℕ), rawCh ≤ 0x3000 →
      AD7156_ReadChannelCapacitance chRange rawCh = 0) ∧
    (∀ (chRange : ℚ) (rawCh : ℕ),
      chRange = 1 / 2 ∨ chRange = 1 ∨ chRange = 2 ∨ chRange = 4 → 0xD000 ≤ rawCh →
      AD7156_ReadChannelCapacitance chRange rawCh = chRange) ∧
    (∀ (chRange : ℚ) (rawCh : ℕ), AD7156_WaitReadChannelCapacitance chRange rawCh =
      AD7156_ReadChannelCapacitance chRange rawCh) := by
  refine ⟨AD7156_ReadChannelCapacitance_eq, ?_, ?_, fun _ _ => rfl⟩
  · intro chRange rawCh h
    rw [AD7156_ReadChannelCapacitance_eq]
    have hc : max 0x3000 (min rawCh 0xD000) = 0x3000 := by omega
    rw [hc]
    norm_num [f32_zero]
  · intro chRange rawCh hr h
    rw [AD7156_ReadChannelCapacitance_eq]
    have hc : max 0x3000 (min rawCh 0xD000) = 0xD000 := by omega
    rw [hc]
    have e1 : f32 (20480 : ℚ) = 20480 := by
      simpa using f32_intCast 20480 (by norm_num)
    have e2 : f32 (40960 : ℚ) = 40960 := by
      simpa using f32_intCast 40960 (by norm_num)
    have e3 : f32 (81920 : ℚ) = 81920 := by
      simpa using f32_intCast 81920 (by norm_num)
    have e4 : f32 (163840 : ℚ) = 163840 := by
      simpa using f32_intCast 163840 (by norm_num)
    have e5 : f32 (1 / 2 : ℚ) = 1 / 2 := by
      have := f32_exact 1 (-1) (by norm_num) (by norm_num)
      norm_num at this
      simpa using this
    have e6 : f32 (1 : ℚ) = 1 := by simpa using f32_intCast 1 (by norm_num)
    have e7 : f32 (2 : ℚ) = 2 := by simpa using f32_intCast 2 (by norm_num)
    have e8 : f32 (4 : ℚ) = 4 := by simpa using f32_intCast 4 (by norm_num)
    rcases hr with rfl | rfl | rfl | rfl
    · norm_num [e1, e5]
    · norm_num [e2, e6]
    · norm_num [e3, e7]
    · norm_num [e4, e8]

/-- Instance of C2 at range 2.0: the raw codes `0x2000` and `0x3000` both give `0.0`, and
`0xFFFF` and `0xD000` both give `2.0`. -/
theorem AD7156_ReadChannelCapacitance_saturates_witness :
    AD7156_ReadChannelCapacitance 2 0x2000 = 0 ∧ AD7156_ReadChannelCapacitance 2 0x3000 = 0 ∧
    AD7156_ReadChannelCapacitance 2 0xFFFF = 2 ∧ AD7156_ReadChannelCapacitance 2 0xD000 = 2 :=
  ⟨AD7156_ReadChannelCapacitance_saturates.2.1 2 0x2000 (by norm_num),
   AD7156_ReadChannelCapacitance_saturates.2.1 2 0x3000 (by norm_num),
   AD7156_ReadChannelCapacitance_saturates.2.2.1 2 0xFFFF (by norm_num) (by norm_num),
   AD7156_ReadChannelCapacitance_saturates.2.2.1 2 0xD000 (by norm_num) (by norm_num)⟩

/-- Counterexample to C2 as stated.  The binary32 value `13421775 / 2 ^ 23` (about
`1.6000003`) is a range for which the full-scale code `0xD000` does not decode to the
range: the product `0xA000 * range` needs 27 significant bits and is rounded. -/
theorem AD7156_ReadChannelCapacitance_full_scale_counterexample :
    f32 (13421775 / 8388608) = 13421775 / 8388608 ∧
    AD7156_ReadChannelCapacitance (13421775 / 8388608) 0xD000 ≠ 13421775 / 8388608 := by
  constructor
  · have := f32_exact 13421775 (-23) (by norm_num) (by norm_num)
    norm_num at this
    simpa using this
  · rw [AD7156_ReadChannelCapacitance_eq]
    have hc : max 0x3000 (min 0xD000 0xD000) = 0xD000 := by norm_num
    rw [hc]
    have e1 : f32 ((((0xD000 : ℕ) : ℚ) - 0x3000) * (13421775 / 8388608)) = 8388609 / 128 := by
      apply f32_eval _ _ 16 8388609 <;> norm_num [abs_of_pos]
    rw [e1]
    have e2 : f32 (8388609 / 128 / 0xA000) = 13421774 / 8388608 := by
      apply f32_eval _ _ 0 13421774 <;> norm_num [abs_of_pos]
    rw [e2]
    norm_num

/-- Claim C3, as amended.  With filter select 0, single-cycle settling off and power mode 1
(clock 153600 Hz, coefficient 32): for every `fs_value` from 1 to 2047 held in the filter
register, the divider that `_ad7124_iio_set_odr` computes from the rate that
`_ad7124_iio_get_odr` returns is `fs_value` or `fs_value - 1`; and for the target 10.0 Hz
the divider is 480, from which the rate read back differs from 10.0 by less than 0.1. -/
theorem ad7124_odr_fs_roundtrip (adc_control filter : ℕ)
    (hp : (adc_control &&& AD7124_ADC_CTRL_REG_POWER_MODE 3) >>> 6 = 1)
    (hf : filter &&& AD7124_FILT_REG_FILTER 7 = AD7124_FILT_REG_FILTER 0)
    (hs : filter &&& AD7124_FILT_REG_SINGLE_CYCLE = 0) :
    (1 ≤ filter &&& AD7124_FILT_REG_FS 0x7FF →
      ∃ odr fs, _ad7124_iio_get_odr adc_control filter = some odr ∧
        _ad7124_iio_set_odr adc_control filter odr = .ok fs ∧
        (fs = filter &&& AD7124_FILT_REG_FS 0x7FF ∨
          fs + 1 = filter &&& AD7124_FILT_REG_FS 0x7FF)) ∧
    _ad7124_iio_set_odr adc_control filter 10 = .ok 480 ∧
    (filter &&& AD7124_FILT_REG_FS 0x7FF = 480 →
      ∃ odr, _ad7124_iio_get_odr adc_control filter = some odr ∧ |odr - 10| < 1 / 10) := by
  refine ⟨?_, ?_, ?_⟩
  · intro h1
    have hle : filter &&& AD7124_FILT_REG_FS 0x7FF ≤ 2047 := by
      have : AD7124_FILT_REG_FS 0x7FF = 2047 := by decide
      rw [this]
      exact Nat.and_le_right
    refine ⟨_, _, ad7124_get_odr_of_sinc4 _ _ hp hf hs h1, ad7124_set_odr_of_sinc4 _ _ _ hp hf hs, ?_⟩
    generalize filter &&& AD7124_FILT_REG_FS 0x7FF = n at h1 hle ⊢
    have hn1 : (1 : ℚ) ≤ n := by exact_mod_cast h1
    have hn2 : (n : ℚ) ≤ 2047 := by exact_mod_cast hle
    have hz := ad7124_odr_roundtrip_near n hn1 hn2
    generalize f32 (153600 / f32 (32 * f32 (153600 / (32 * (n : ℚ))))) = z at hz ⊢
    rw [abs_le] at hz
    have hf1 : (n : ℤ) - 1 ≤ ⌊z⌋ := Int.le_floor.mpr (by push_cast; linarith)
    have hf2 : ⌊z⌋ < (n : ℤ) + 1 := Int.floor_lt.mpr (by push_cast; linarith)
    rw [f32_to_u16_of_nonneg z (by linarith) (by linarith)]
    split_ifs <;> omega
  · rw [ad7124_set_odr_of_sinc4 _ _ _ hp hf hs]
    have e1 : f32 (320 : ℚ) = 320 := by
      simpa using f32_ofNat_cast 320 (by norm_num)
    have e2 : f32 (480 : ℚ) = 480 := by
      simpa using f32_ofNat_cast 480 (by norm_num)
    have e3 : f32_to_u16 480 = 480 := by
      rw [f32_to_u16_of_nonneg 480 (by norm_num) (by norm_num)]
      have : ⌊(480 : ℚ)⌋ = 480 := by exact_mod_cast Int.floor_intCast (480 : ℤ)
      rw [this]; rfl
    norm_num [e1, e2, e3]
  · intro h
    refine ⟨_, ad7124_get_odr_of_sinc4 _ _ hp hf hs (by omega), ?_⟩
    rw [h]
    have e1 : f32 (10 : ℚ) = 10 := by
      simpa using f32_ofNat_cast 10 (by norm_num)
    norm_num [e1]

/-- Instance of C3 with power mode 1 (`adc_control = 0x40`) and a filter register holding
`fs_value = 480`, filter select 0 and no single-cycle settling. -/
theorem ad7124_odr_fs_roundtrip_witness :
    (0x40 &&& AD7124_ADC_CTRL_REG_POWER_MODE 3) >>> 6 = 1 ∧
    480 &&& AD7124_FILT_REG_FILTER 7 = AD7124_FILT_REG_FILTER 0 ∧
    480 &&& AD7124_FILT_REG_SINGLE_CYCLE = 0 ∧
    1 ≤ 480 &&& AD7124_FILT_REG_FS 0x7FF ∧
    (∃ odr fs, _ad7124_iio_get_odr 0x40 480 = some odr ∧
      _ad7124_iio_set_odr 0x40 480 odr = .ok fs ∧
      (fs = 480 &&& AD7124_FILT_REG_FS 0x7FF ∨ fs + 1 = 480 &&& AD7124_FILT_REG_FS 0x7FF)) ∧
    _ad7124_iio_set_odr 0x40 480 10 = .ok 480 :=
  ⟨by decide, by decide, by decide, by decide,
    (ad7124_odr_fs_roundtrip 0x40 480 (by decide) (by decide) (by decide)).1 (by decide),
    (ad7124_odr_fs_roundtrip 0x40 480 (by decide) (by decide) (by decide)).2.1⟩

/-- Counterexample to C3 as stated.  With power mode 1, filter select 0, single-cycle
settling off and `fs_value = 31`, the rate read back is the binary32 value nearest to
`4800 / 31`, which lies above it, and the divider computed from that rate is 30. -/
theorem ad7124_odr_fs_roundtrip_counterexample :
    _ad7124_iio_get_odr 0x40 31 = some (5073755 / 32768) ∧
    _ad7124_iio_set_odr 0x40 31 (5073755 / 32768) = .ok 30 := by
  have hp : (0x40 &&& AD7124_ADC_CTRL_REG_POWER_MODE 3) >>> 6 = 1 := by decide
  have hf : 31 &&& AD7124_FILT_REG_FILTER 7 = AD7124_FILT_REG_FILTER 0 := by decide
  have hs : 31 &&& AD7124_FILT_REG_SINGLE_CYCLE = 0 := by decide
  constructor
  · rw [ad7124_get_odr_of_sinc4 _ _ hp hf hs (by decide)]
    have hn : 31 &&& AD7124_FILT_REG_FS 0x7FF = 31 := by decide
    rw [hn]
    congr 1
    apply f32_eval _ _ 7 10147510 <;> norm_num [abs_of_pos]
  · rw [ad7124_set_odr_of_sinc4 _ _ _ hp hf hs]
    have e1 : f32 (32 * (5073755 / 32768)) = 5073755 / 1024 := by
      have := f32_exact 5073755 (-10) (by norm_num) (by norm_num)
      norm_num at this ⊢
      simpa using this
    have e2 : f32 (153600 / (5073755 / 1024)) = 16252927 / 524288 := by
      apply f32_eval _ _ 4 16252927 <;> norm_num [abs_of_pos]
    have e3 : f32_to_u16 (16252927 / 524288) = 30 := by
      rw [f32_to_u16_of_nonneg _ (by norm_num) (by norm_num)]
      have : ⌊(16252927 / 524288 : ℚ)⌋ = 30 := by
        rw [Int.floor_eq_iff]; norm_num
      rw [this]; rfl
    rw [e1, e2, e3]
    rfl

/-- Claim C4.  For every content of the ADC control register and of the filter register,
that is for every filter select (bits 23:21), power mode (bits 7:6) and single-cycle flag
(bit 16), the coefficient left by `ad7124_8pmdz_fltcoff_logic_get` is the one of the
specification's table: 128 (single-cycle, select 0), 96 (single-cycle, select 2), 352 or
608 (select 4, power mode 0 or not), 320 or 576 (select 5, power mode 0 or not), else 32. -/
theorem ad7124_fltcoff_table (adc_control filter : ℕ) :
    ad7124_8pmdz_fltcoff_logic_get adc_control filter =
      filter_coefficient_table ((filter >>> 21) &&& 0x7)
        ((adc_control &&& AD7124_ADC_CTRL_REG_POWER_MODE 3) >>> 6)
        (decide (filter &&& AD7124_FILT_REG_SINGLE_CYCLE ≠ 0)) := by
  have hpm := ad7124_power_mode_lt adc_control
  have hmod : ((adc_control &&& AD7124_ADC_CTRL_REG_POWER_MODE 3) >>> 6) % 65536 =
      (adc_control &&& AD7124_ADC_CTRL_REG_POWER_MODE 3) >>> 6 := Nat.mod_eq_of_lt (by omega)
  have hlt : (filter >>> 21) &&& 7 < 8 := Nat.lt_succ_of_le Nat.and_le_right
  unfold ad7124_8pmdz_fltcoff_logic_get filter_coefficient_table
  simp only [hmod, filter_select_eq_iff filter 0 (by norm_num),
    filter_select_eq_iff filter 2 (by norm_num), filter_select_eq_iff filter 4 (by norm_num),
    filter_select_eq_iff filter 5 (by norm_num)]
  generalize (filter >>> 21) &&& 7 = fsel at hlt ⊢
  generalize (adc_control &&& AD7124_ADC_CTRL_REG_POWER_MODE 3) >>> 6 = pm at hpm ⊢
  by_cases hsc : filter &&& AD7124_FILT_REG_SINGLE_CYCLE = 0
  · interval_cases fsel <;> interval_cases pm <;> simp [hsc]
  · interval_cases fsel <;> interval_cases pm <;> simp [hsc]

/-- Claim C5, as amended.  For every configuration and every target rate `odr > 0` whose
single-precision quotient `q = f_clk / (flt_coff * odr)` is below 65536, the divider
computed by `_ad7124_iio_set_odr` is `q` truncated toward zero (its floor, not the
nearest integer), clamped to `[1, 2047]`; and the quotient is below 65536 for every target
rate of at least 1 Hz. -/
theorem ad7124_set_odr_fs_value (adc_control filter : ℕ) (odr f_clk : ℚ)
    (hclk : ad7124_8pmdz_fclk_logic_get adc_control = .ok f_clk) (hodr : 0 < odr) :
    (f32 (f_clk / f32 ((ad7124_8pmdz_fltcoff_logic_get adc_control filter : ℚ) * odr)) < 65536 →
      _ad7124_iio_set_odr adc_control filter odr =
        .ok (max 1 (min 2047 ⌊f32 (f_clk /
          f32 ((ad7124_8pmdz_fltcoff_logic_get adc_control filter : ℚ) * odr))⌋.toNat))) ∧
    (1 ≤ odr →
      f32 (f_clk / f32 ((ad7124_8pmdz_fltcoff_logic_get adc_control filter : ℚ) * odr))
        < 65536) := by
  have hc := ad7124_fltcoff_bounds adc_control filter
  have hc32 : (32 : ℚ) ≤ (ad7124_8pmdz_fltcoff_logic_get adc_control filter : ℚ) := by
    exact_mod_cast hc.1
  have hf : 0 < f_clk ∧ f_clk ≤ 614400 := by
    rcases ad7124_fclk_cases adc_control with h | h | h <;> rw [h] at hclk <;>
      injection hclk with hclk <;> rw [← hclk] <;> norm_num
  constructor
  · intro hq
    rw [ad7124_set_odr_eq _ _ _ _ hclk]
    have hd : 0 ≤ f32 ((ad7124_8pmdz_fltcoff_logic_get adc_control filter : ℚ) * odr) :=
      f32_nonneg _ (by positivity)
    have hq0 : 0 ≤ f32 (f_clk /
        f32 ((ad7124_8pmdz_fltcoff_logic_get adc_control filter : ℚ) * odr)) :=
      f32_nonneg _ (div_nonneg hf.1.le hd)
    generalize f32 (f_clk /
      f32 ((ad7124_8pmdz_fltcoff_logic_get adc_control filter : ℚ) * odr)) = q at hq hq0 ⊢
    rw [f32_to_u16_of_nonneg q hq0 hq]
    congr 1
    split_ifs <;> omega
  · intro h1
    have e32 : f32 (32 : ℚ) = 32 := by simpa using f32_ofNat_cast 32 (by norm_num)
    have e19200 : f32 (19200 : ℚ) = 19200 := by simpa using f32_ofNat_cast 19200 (by norm_num)
    have hd : 32 ≤ f32 ((ad7124_8pmdz_fltcoff_logic_get adc_control filter : ℚ) * odr) :=
      le_f32 32 _ e32 (by nlinarith)
    have hq : f_clk / f32 ((ad7124_8pmdz_fltcoff_logic_get adc_control filter : ℚ) * odr)
        ≤ 19200 := by
      rw [div_le_iff₀ (by linarith)]
      linarith
    have := f32_le 19200 _ e19200 hq
    linarith

/-- Instance of C5 with power mode 1, filter select 0 and the target 3200 Hz: the quotient
is 1.5 and the divider is 1. -/
theorem ad7124_set_odr_fs_value_witness :
    ad7124_8pmdz_fclk_logic_get 0x40 = .ok 153600 ∧ (0 : ℚ) < 3200 ∧ (1 : ℚ) ≤ 3200 ∧
    _ad7124_iio_set_odr 0x40 0 3200 =
      .ok (max 1 (min 2047 ⌊f32 (153600 /
        f32 ((ad7124_8pmdz_fltcoff_logic_get 0x40 0 : ℚ) * 3200))⌋.toNat)) :=
  ⟨ad7124_fclk_of_power_mode_1 0x40 (by decide), by norm_num, by norm_num,
    (ad7124_set_odr_fs_value 0x40 0 3200 153600
        (ad7124_fclk_of_power_mode_1 0x40 (by decide)) (by norm_num)).1
      ((ad7124_set_odr_fs_value 0x40 0 3200 153600
        (ad7124_fclk_of_power_mode_1 0x40 (by decide)) (by norm_num)).2 (by norm_num))⟩

/-- Counterexample to C5 as stated.  With power mode 1 (clock 153600 Hz), coefficient 32
and the target 3200 Hz the quotient is exactly 1.5: the code leaves the divider 1, while
rounding to the nearest integer gives 2. -/
theorem ad7124_set_odr_round_counterexample :
    ad7124_8pmdz_fclk_logic_get 0x40 = .ok 153600 ∧
    ad7124_8pmdz_fltcoff_logic_get 0x40 0 = 32 ∧
    _ad7124_iio_set_odr 0x40 0 3200 = .ok 1 ∧
    max 1 (min 2047 (round ((153600 : ℚ) / (32 * 3200))).toNat) = 2 := by
  have hp : (0x40 &&& AD7124_ADC_CTRL_REG_POWER_MODE 3) >>> 6 = 1 := by decide
  have hf : 0 &&& AD7124_FILT_REG_FILTER 7 = AD7124_FILT_REG_FILTER 0 := by decide
  have hs : 0 &&& AD7124_FILT_REG_SINGLE_CYCLE = 0 := by decide
  refine ⟨ad7124_fclk_of_power_mode_1 _ hp, ad7124_fltcoff_of_sinc4 _ _ hf hs, ?_, ?_⟩
  · rw [ad7124_set_odr_of_sinc4 _ _ _ hp hf hs]
    have e1 : f32 (32 * 3200 : ℚ) = 102400 := by
      have := f32_ofNat_cast 102400 (by norm_num)
      norm_num at this ⊢
      exact this
    have e2 : f32 (153600 / 102400 : ℚ) = 3 / 2 := by
      have := f32_exact 3 (-1) (by norm_num) (by norm_num)
      norm_num at this ⊢
      exact this
    have e3 : f32_to_u16 (3 / 2) = 1 := by
      rw [f32_to_u16_of_nonneg _ (by norm_num) (by norm_num)]
      have : ⌊(3 / 2 : ℚ)⌋ = 1 := by
        rw [Int.floor_eq_iff]; norm_num
      rw [this]; rfl
    rw [e1, e2, e3]
    rfl
  · have : round ((153600 : ℚ) / (32 * 3200)) = 2 := by
      rw [round_eq, Int.floor_eq_iff]; norm_num
    rw [this]
    rfl

/-- Evaluation for C7 at the failing inputs, with range 1.0.  The request 1.5 pF lies
above the range: the sum `1.5 * 0xA000 / 1 + 0x3000` is 73728, which narrowed to 16 bits
is `0x2000`, and the code written is `0x3000` instead of `0xD000`.  The request -0.5 pF
lies below zero: the sum is -8192, which narrowed to 16 bits is `0xE000`, and the code
written is `0xD000` instead of `0x3000`. -/
theorem AD7156_SetThreshold_wraps :
    AD7156_SetThreshold 1 (3 / 2) = 0x3000 ∧ AD7156_SetThreshold 1 (-1 / 2) = 0xD000 := by
  constructor
  · unfold AD7156_SetThreshold
    have e1 : f32 (3 / 2 * 0xA000 : ℚ) = 61440 := by
      have := f32_ofNat_cast 61440 (by norm_num)
      norm_num at this ⊢
      exact this
    have e2 : f32 (61440 / 1 : ℚ) = 61440 := by
      have := f32_ofNat_cast 61440 (by norm_num)
      norm_num at this ⊢
      exact this
    have e3 : f32 (61440 + 0x3000 : ℚ) = 73728 := by
      have := f32_ofNat_cast 73728 (by norm_num)
      norm_num at this ⊢
      exact this
    have e4 : f32_to_u16 73728 = 8192 := by
      have := f32_to_u16_intCast 73728
      norm_num at this
      exact this
    rw [e1, e2, e3, e4]
    rfl
  · unfold AD7156_SetThreshold
    have e1 : f32 (-1 / 2 * 0xA000 : ℚ) = -20480 := by
      have := f32_intCast (-20480) (by norm_num)
      norm_num at this ⊢
      exact this
    have e2 : f32 (-20480 / 1 : ℚ) = -20480 := by
      have := f32_intCast (-20480) (by norm_num)
      norm_num at this ⊢
      exact this
    have e3 : f32 (-20480 + 0x3000 : ℚ) = -8192 := by
      have := f32_intCast (-8192) (by norm_num)
      norm_num at this ⊢
      exact this
    have e4 : f32_to_u16 (-8192) = 57344 := by
      have := f32_to_u16_intCast (-8192)
      norm_num at this
      exact this
    rw [e1, e2, e3, e4]
    rfl

/-- Claim C8, as amended.  For every range in {0.5, 1, 2, 4} and every request
`0 <= pFthr <= range`, the code computed by `AD7156_SetThreshold` is the single-precision
sum `pFthr * 0xA000 / range + 0x3000` truncated toward zero (its floor, not the nearest
integer); neither the narrowing to 16 bits nor the two comparisons change it. -/
theorem AD7156_SetThreshold_in_range (range pFthr : ℚ)
    (hr : range = 1 / 2 ∨ range = 1 ∨ range = 2 ∨ range = 4)
    (h0 : 0 ≤ pFthr) (h1 : pFthr ≤ range) :
    AD7156_SetThreshold range pFthr =
      ⌊f32 (f32 (f32 (pFthr * 0xA000) / range) + 0x3000)⌋.toNat := by
  unfold AD7156_SetThreshold
  have e0 : f32 (12288 : ℚ) = 12288 := by simpa using f32_ofNat_cast 12288 (by norm_num)
  have e1 : f32 (20480 : ℚ) = 20480 := by simpa using f32_ofNat_cast 20480 (by norm_num)
  have e2 : f32 (40960 : ℚ) = 40960 := by simpa using f32_ofNat_cast 40960 (by norm_num)
  have e3 : f32 (81920 : ℚ) = 81920 := by simpa using f32_ofNat_cast 81920 (by norm_num)
  have e4 : f32 (163840 : ℚ) = 163840 := by simpa using f32_ofNat_cast 163840 (by norm_num)
  have e5 : f32 (53248 : ℚ) = 53248 := by simpa using f32_ofNat_cast 53248 (by norm_num)
  have hb : 0 ≤ f32 (f32 (pFthr * 0xA000) / range) ∧
      f32 (f32 (pFthr * 0xA000) / range) ≤ 40960 := by
    have ha0 : 0 ≤ f32 (pFthr * 0xA000) := f32_nonneg _ (by positivity)
    rcases hr with rfl | rfl | rfl | rfl
    · have ha1 : f32 (pFthr * 0xA000) ≤ 20480 := f32_le 20480 _ e1 (by linarith)
      exact ⟨f32_nonneg _ (by positivity), f32_le 40960 _ e2 (by linarith)⟩
    · have ha1 : f32 (pFthr * 0xA000) ≤ 40960 := f32_le 40960 _ e2 (by linarith)
      exact ⟨f32_nonneg _ (by positivity), f32_le 40960 _ e2 (by linarith)⟩
    · have ha1 : f32 (pFthr * 0xA000) ≤ 81920 := f32_le 81920 _ e3 (by linarith)
      exact ⟨f32_nonneg _ (by positivity), f32_le 40960 _ e2 (by linarith)⟩
    · have ha1 : f32 (pFthr * 0xA000) ≤ 163840 := f32_le 163840 _ e4 (by linarith)
      exact ⟨f32_nonneg _ (by positivity), f32_le 40960 _ e2 (by linarith)⟩
  generalize f32 (f32 (pFthr * 0xA000) / range) = b at hb ⊢
  have hs0 : 12288 ≤ f32 (b + 0x3000) := le_f32 12288 _ e0 (by linarith)
  have hs1 : f32 (b + 0x3000) ≤ 53248 := f32_le 53248 _ e5 (by linarith)
  generalize f32 (b + 0x3000) = s at hs0 hs1 ⊢
  have hf0 : (12288 : ℤ) ≤ ⌊s⌋ := Int.le_floor.mpr (by push_cast; linarith)
  have hf1 : ⌊s⌋ ≤ (53248 : ℤ) := by
    have : ⌊s⌋ ≤ ⌊(53248 : ℚ)⌋ := Int.floor_le_floor hs1
    have e : ⌊(53248 : ℚ)⌋ = 53248 := by exact_mod_cast Int.floor_intCast (53248 : ℤ)
    omega
  simp only [f32_to_u16_of_nonneg s (by linarith) (by linarith)]
  split_ifs <;> omega

/-- Instance of C8 at range 1.0 and the request `3 / 32768` pF. -/
theorem AD7156_SetThreshold_in_range_witness :
    ((1 : ℚ) = 1 / 2 ∨ (1 : ℚ) = 1 ∨ (1 : ℚ) = 2 ∨ (1 : ℚ) = 4) ∧
    (0 : ℚ) ≤ 3 / 32768 ∧ (3 / 32768 : ℚ) ≤ 1 ∧
    AD7156_SetThreshold 1 (3 / 32768) =
      ⌊f32 (f32 (f32 (3 / 32768 * 0xA000) / 1) + 0x3000)⌋.toNat :=
  ⟨by norm_num, by norm_num, by norm_num,
    AD7156_SetThreshold_in_range 1 (3 / 32768) (by norm_num) (by norm_num) (by norm_num)⟩

/-- Counterexample to C8 as stated.  With range 1.0 and the request `3 / 32768` pF the
quotient `pFthr * 0xA000 / range` is exactly 3.75: the code written is `0x3003`, while
rounding the quotient to the nearest integer gives `0x3004`. -/
theorem AD7156_SetThreshold_round_counterexample :
    AD7156_SetThreshold 1 (3 / 32768) = 0x3003 ∧
    (round ((3 / 32768 : ℚ) * 0xA000 / 1)).toNat + 0x3000 = 0x3004 := by
  constructor
  · unfold AD7156_SetThreshold
    have e1 : f32 (3 / 32768 * 0xA000 : ℚ) = 15 / 4 := by
      have := f32_exact 15 (-2) (by norm_num) (by norm_num)
      norm_num at this ⊢
      exact this
    have e2 : f32 (15 / 4 / 1 : ℚ) = 15 / 4 := by
      have := f32_exact 15 (-2) (by norm_num) (by norm_num)
      norm_num at this ⊢
      exact this
    have e3 : f32 (15 / 4 + 0x3000 : ℚ) = 49167 / 4 := by
      have := f32_exact 49167 (-2) (by norm_num) (by norm_num)
      norm_num at this ⊢
      exact this
    have e4 : f32_to_u16 (49167 / 4) = 12291 := by
      rw [f32_to_u16_of_nonneg _ (by norm_num) (by norm_num)]
      have : ⌊(49167 / 4 : ℚ)⌋ = 12291 := by
        rw [Int.floor_eq_iff]; norm_num
      rw [this]; rfl
    rw [e1, e2, e3, e4]
    rfl
  · have : round ((3 / 32768 : ℚ) * 0xA000 / 1) = 4 := by
      rw [round_eq, Int.floor_eq_iff]; norm_num
    rw [this]
    rfl

/-- Claim C9.  Every code an encoder computes for writing back lies within its field, for
every input: the threshold code of `AD7156_SetThreshold` is in `[0x3000, 0xD000]`, the
sensitivity code of `AD7156_SetSensitivity` has no bit set outside the mask `0x0FF0`, and
`_ad7124_iio_set_odr` always reaches the register update with a divider in `[1, 2047]`. -/
theorem encoders_emit_codes_within_field :
    (∀ range pFthr : ℚ, 0x3000 ≤ AD7156_SetThreshold range pFthr ∧
      AD7156_SetThreshold range pFthr ≤ 0xD000) ∧
    (∀ range pFsensitivity : ℚ, AD7156_SetSensitivity range pFsensitivity &&& 0x0FF0 =
      AD7156_SetSensitivity range pFsensitivity) ∧
    (∀ (adc_control filter : ℕ) (odr : ℚ), ∃ fs_value,
      _ad7124_iio_set_odr adc_control filter odr = .ok fs_value ∧
      1 ≤ fs_value ∧ fs_value ≤ 2047) := by
  refine ⟨?_, ?_, ?_⟩
  · intro range pFthr
    unfold AD7156_SetThreshold
    dsimp only
    constructor <;> split_ifs <;> omega
  · intro range pFsensitivity
    unfold AD7156_SetSensitivity
    have hlt : (f32_to_u16 (f32 (f32 (pFsensitivity * 0xA00) / range)) <<< 4) &&& 0x0FF0
        < 65536 := lt_of_le_of_lt Nat.and_le_right (by norm_num)
    simp only [Nat.mod_eq_of_lt hlt]
    rw [Nat.and_assoc, Nat.and_self]
  · intro adc_control filter odr
    rcases ad7124_fclk_cases adc_control with h | h | h
    all_goals
      refine ⟨_, ad7124_set_odr_eq _ _ _ _ h, ?_⟩
      constructor <;> split_ifs <;> omega

/-- Claim C10, as amended.  For every range in {0.5, 1, 2, 4} and every request
`pFsensitivity >= 0`, the code computed by `AD7156_SetSensitivity` is
`(trunc(q) << 4) & 0x0FF0`, where `q` is the single-precision quotient
`pFsensitivity * 0xA00 / range` and `trunc` discards its fractional part (floor, not the
nearest integer); nothing clamps `q` against the range, and the narrowing to 16 bits
does not show through the mask. -/
theorem AD7156_SetSensitivity_code (range pFsensitivity : ℚ)
    (hr : range = 1 / 2 ∨ range = 1 ∨ range = 2 ∨ range = 4) (h0 : 0 ≤ pFsensitivity) :
    AD7156_SetSensitivity range pFsensitivity =
      (⌊f32 (f32 (pFsensitivity * 0xA00) / range)⌋.toNat <<< 4) &&& 0x0FF0 := by
  have hrpos : 0 < range := by rcases hr with rfl | rfl | rfl | rfl <;> norm_num
  have hq : 0 ≤ f32 (f32 (pFsensitivity * 0xA00) / range) :=
    f32_nonneg _ (div_nonneg (f32_nonneg _ (by positivity)) hrpos.le)
  unfold AD7156_SetSensitivity f32_to_u16 truncToInt
  generalize f32 (f32 (pFsensitivity * 0xA00) / range) = q at hq ⊢
  rw [if_pos hq]
  have hf : 0 ≤ ⌊q⌋ := Int.floor_nonneg.mpr hq
  simp only [shl4_and_mask]
  omega

/-- Instance of C10 at range 1.0 and the request `3 / 2048` pF. -/
theorem AD7156_SetSensitivity_code_witness :
    ((1 : ℚ) = 1 / 2 ∨ (1 : ℚ) = 1 ∨ (1 : ℚ) = 2 ∨ (1 : ℚ) = 4) ∧ (0 : ℚ) ≤ 3 / 2048 ∧
    AD7156_SetSensitivity 1 (3 / 2048) =
      (⌊f32 (f32 (3 / 2048 * 0xA00) / 1)⌋.toNat <<< 4) &&& 0x0FF0 :=
  ⟨by norm_num, by norm_num,
    AD7156_SetSensitivity_code 1 (3 / 2048) (by norm_num) (by norm_num)⟩

/-- Counterexample to C10 as stated.  With range 1.0 and the request `3 / 2048` pF the
quotient `pFsensitivity * 0xA00 / range` is exactly 3.75: the code written is `0x030`,
while rounding the quotient to the nearest integer gives `0x040`. -/
theorem AD7156_SetSensitivity_round_counterexample :
    AD7156_SetSensitivity 1 (3 / 2048) = 0x030 ∧
    ((round ((3 / 2048 : ℚ) * 0xA00 / 1)).toNat <<< 4) &&& 0x0FF0 = 0x040 := by
  constructor
  · unfold AD7156_SetSensitivity
    have e1 : f32 (3 / 2048 * 0xA00 : ℚ) = 15 / 4 := by
      have := f32_exact 15 (-2) (by norm_num) (by norm_num)
      norm_num at this ⊢
      exact this
    have e2 : f32 (15 / 4 / 1 : ℚ) = 15 / 4 := by
      have := f32_exact 15 (-2) (by norm_num) (by norm_num)
      norm_num at this ⊢
      exact this
    have e3 : f32_to_u16 (15 / 4) = 3 := by
      rw [f32_to_u16_of_nonneg _ (by norm_num) (by norm_num)]
      have : ⌊(15 / 4 : ℚ)⌋ = 3 := by
        rw [Int.floor_eq_iff]; norm_num
      rw [this]; rfl
    rw [e1, e2, e3]
    rfl
  · have : round ((3 / 2048 : ℚ) * 0xA00 / 1) = 4 := by
      rw [round_eq, Int.floor_eq_iff]; norm_num
    rw [this]
    rfl

/-- Claim C11.  With filter select 7, `_ad7124_iio_get_odr` returns a value that depends
only on the post-filter sub-field (bits 19:17), whatever the rate divider, the power mode
and the coefficient: the single-precision constants 27.27 for 2 and 16.7 for 6 (each
within `1e-6` of the decimal), exactly 25 for 3 and exactly 20 for 5; for every other
sub-field value (0, 1, 4, 7) it returns the error code `FAILURE`. -/
theorem ad7124_get_odr_post_filter (adc_control filter : ℕ)
    (h7 : (filter >>> 21) &&& 0x7 = 7) :
    ((filter >>> 17) &&& 0x7 = 2 →
      _ad7124_iio_get_odr adc_control filter = some (f32 (2727 / 100))) ∧
    ((filter >>> 17) &&& 0x7 = 3 → _ad7124_iio_get_odr adc_control filter = some 25) ∧
    ((filter >>> 17) &&& 0x7 = 5 → _ad7124_iio_get_odr adc_control filter = some 20) ∧
    ((filter >>> 17) &&& 0x7 = 6 →
      _ad7124_iio_get_odr adc_control filter = some (f32 (167 / 10))) ∧
    ((filter >>> 17) &&& 0x7 = 0 ∨ (filter >>> 17) &&& 0x7 = 1 ∨
        (filter >>> 17) &&& 0x7 = 4 ∨ (filter >>> 17) &&& 0x7 = 7 →
      _ad7124_iio_get_odr adc_control filter = some ((FAILURE : ℤ) : ℚ)) ∧
    |f32 (2727 / 100) - 2727 / 100| < 1 / 10 ^ 6 ∧
    |f32 (167 / 10) - 167 / 10| < 1 / 10 ^ 6 := by
  have hsel : filter &&& AD7124_FILT_REG_FILTER 7 = AD7124_FILT_REG_FILTER 7 :=
    (filter_select_eq_iff filter 7 (by norm_num)).mpr h7
  have hlt : (filter >>> 17) &&& 7 ≤ 7 := Nat.and_le_right
  have e1 : f32 (2727 / 100) = 7148667 / 262144 := by
    apply f32_eval _ _ 4 14297334 <;> norm_num [abs_of_pos]
  have e2 : f32 (167 / 10) = 4377805 / 262144 := by
    apply f32_eval _ _ 4 8755610 <;> norm_num [abs_of_pos]
  have hget : _ad7124_iio_get_odr adc_control filter =
      (match (filter >>> 17) &&& 0x7 with
        | 2 => some (f32 (2727 / 100))
        | 3 => some 25
        | 5 => some 20
        | 6 => some (f32 (167 / 10))
        | _ => some ((FAILURE : ℤ) : ℚ)) := by
    unfold _ad7124_iio_get_odr
    rcases ad7124_fclk_cases adc_control with h | h | h <;>
      simp only [h, hsel, if_true, ad7124_post_filter_field, f32_failure]
  rw [hget]
  refine ⟨?_, ?_, ?_, ?_, ?_, ?_, ?_⟩
  · intro h; rw [h]
  · intro h; rw [h]
  · intro h; rw [h]
  · intro h; rw [h]
  · intro h; rcases h with h | h | h | h <;> rw [h]
  · rw [e1, abs_lt]; constructor <;> norm_num
  · rw [e2, abs_lt]; constructor <;> norm_num

/-- Instance of C11 with power mode 1: the filter register `0xE60000` (filter select 7,
sub-field 3) gives exactly 25, and `0xE20000` (sub-field 1) gives `FAILURE`. -/
theorem ad7124_get_odr_post_filter_witness :
    (0xE60000 >>> 21) &&& 0x7 = 7 ∧ (0xE60000 >>> 17) &&& 0x7 = 3 ∧
    _ad7124_iio_get_odr 0x40 0xE60000 = some 25 ∧
    (0xE20000 >>> 21) &&& 0x7 = 7 ∧ (0xE20000 >>> 17) &&& 0x7 = 1 ∧
    _ad7124_iio_get_odr 0x40 0xE20000 = some ((FAILURE : ℤ) : ℚ) :=
  ⟨by decide, by decide,
    (ad7124_get_odr_post_filter 0x40 0xE60000 (by decide)).2.1 (by decide),
    by decide, by decide,
    (ad7124_get_odr_post_filter 0x40 0xE20000 (by decide)).2.2.2.2.1 (by decide)⟩

/-- Claim C12.  For every target cutoff `freq` with `freq * 1000 < 2 ^ 32`, writing
`a = floor (freq * 1000 / 230)` and `b = floor (freq * 1000 / 262)`,
`ad1724_iio_write_filter_3db` chooses filter select 2 with the rate `b` when `a > b` and
filter select 0 with the rate `a` otherwise; the rate chosen is always `min a b`. -/
theorem ad7124_write_filter_3db_choice (freq : ℕ) (h : freq * 1000 < 2 ^ 32) :
    ad1724_iio_write_filter_3db freq =
      (if freq * 1000 / 230 > freq * 1000 / 262 then (2, freq * 1000 / 262)
       else (0, freq * 1000 / 230)) ∧
    (ad1724_iio_write_filter_3db freq).2 = min (freq * 1000 / 230) (freq * 1000 / 262) := by
  have hmod : freq * 1000 % 4294967296 = freq * 1000 := Nat.mod_eq_of_lt (by omega)
  unfold ad1724_iio_write_filter_3db
  simp only [hmod]
  constructor
  · trivial
  · split_ifs <;> simp only <;> omega

/-- Instance of C12 at the target cutoff 50 Hz: `a = 217`, `b = 190`, and the choice is
filter select 2 with the rate 190. -/
theorem ad7124_write_filter_3db_choice_witness :
    50 * 1000 < 2 ^ 32 ∧ ad1724_iio_write_filter_3db 50 = (2, 190) ∧
    (ad1724_iio_write_filter_3db 50).2 = min (50 * 1000 / 230) (50 * 1000 / 262) :=
  ⟨by norm_num, (ad7124_write_filter_3db_choice 50 (by norm_num)).1,
    (ad7124_write_filter_3db_choice 50 (by norm_num)).2⟩

/-- Evaluation for C13 at the failing input.  For the target cutoff 100 Hz
`ad1724_iio_write_filter_3db` chooses filter select 2 with the rate
`floor (100000 / 262) = 381`; the `switch` of `ad1724_iio_read_filter_3db` multiplies the
rate of a filter-select-2 register by 230 / 1000 and gives back 87 Hz, 13 Hz below the
target.  The rate that reads back as the target with filter select 2 is the other
candidate, `floor (100000 / 230) = 434`. -/
theorem ad7124_write_then_read_filter_3db_at_100 :
    ad1724_iio_write_filter_3db 100 = (2, 381) ∧
    ad1724_iio_read_filter_3db_value (AD7124_FILT_REG_FILTER 2) 381 = .ok 87 ∧
    ad1724_iio_read_filter_3db_value (AD7124_FILT_REG_FILTER 2) (100 * 1000 / 230) = .ok 99 := by
  refine ⟨by decide, rfl, rfl⟩

/-- Claim C14, as amended.  For every rate `odr` (an unsigned integer, as converted from
the float rate) with `odr * 262 < 2 ^ 32`, the `switch` of `ad1724_iio_read_filter_3db`
gives `floor (odr * 0.262)` when the filter select is 0 or 4 and `floor (odr * 0.230)`
when it is 2 or 5: the products are divided by 1000 in integer arithmetic and the
fraction is dropped. -/
theorem ad7124_read_filter_3db_value_floor (filter odr : ℕ) (h : odr * 262 < 2 ^ 32) :
    ((filter >>> 21) &&& 0x7 = 0 ∨ (filter >>> 21) &&& 0x7 = 4 →
      ad1724_iio_read_filter_3db_value filter odr =
        .ok ⌊(odr : ℚ) * ((262 : ℕ) / 1000)⌋₊) ∧
    ((filter >>> 21) &&& 0x7 = 2 ∨ (filter >>> 21) &&& 0x7 = 5 →
      ad1724_iio_read_filter_3db_value filter odr =
        .ok ⌊(odr : ℚ) * ((230 : ℕ) / 1000)⌋₊) := by
  have h1 : odr * 262 % 4294967296 = odr * 262 := Nat.mod_eq_of_lt (by omega)
  have h2 : odr * 230 % 4294967296 = odr * 230 := Nat.mod_eq_of_lt (by omega)
  obtain ⟨c1, c2, _⟩ := ad7124_read_filter_3db_value_cases filter odr
  rw [floor_mul_ratio, floor_mul_ratio]
  rw [h1] at c1
  rw [h2] at c2
  exact ⟨c1, c2⟩

/-- Instance of C14 at the rate 100 Hz with filter select 0 and with filter select 2. -/
theorem ad7124_read_filter_3db_value_floor_witness :
    100 * 262 < 2 ^ 32 ∧
    ((AD7124_FILT_REG_FILTER 0 >>> 21) &&& 0x7 = 0 ∨
      (AD7124_FILT_REG_FILTER 0 >>> 21) &&& 0x7 = 4) ∧
    ad1724_iio_read_filter_3db_value (AD7124_FILT_REG_FILTER 0) 100 =
      .ok ⌊((100 : ℕ) : ℚ) * ((262 : ℕ) / 1000)⌋₊ :=
  ⟨by norm_num, by decide,
    (ad7124_read_filter_3db_value_floor (AD7124_FILT_REG_FILTER 0) 100 (by norm_num)).1
      (by decide)⟩

/-- Counterexample to C14 as stated.  With filter select 0 and the rate 100 Hz the value
is 26, not `100 * 0.262 = 26.2`. -/
theorem ad7124_read_filter_3db_value_counterexample :
    ad1724_iio_read_filter_3db_value (AD7124_FILT_REG_FILTER 0) 100 = .ok 26 ∧
    ((26 : ℕ) : ℚ) ≠ 100 * (262 / 1000) := by
  refine ⟨rfl, by norm_num⟩

/-- Claim C15.  On register values that were read successfully,
`ad1724_iio_read_filter_3db` returns `-EINVAL` if and only if the filter select (bits
23:21 of the filter register) is none of 0, 2, 4, 5, and it returns a cutoff if and only
if the filter select is one of these four. -/
theorem ad7124_read_filter_3db_einval (adc_control filter : ℕ) :
    (ad1724_iio_read_filter_3db adc_control filter = .error (-EINVAL) ↔
      ¬((filter >>> 21) &&& 0x7 = 0 ∨ (filter >>> 21) &&& 0x7 = 2 ∨
        (filter >>> 21) &&& 0x7 = 4 ∨ (filter >>> 21) &&& 0x7 = 5)) ∧
    ((∃ value, ad1724_iio_read_filter_3db adc_control filter = .ok value) ↔
      ((filter >>> 21) &&& 0x7 = 0 ∨ (filter >>> 21) &&& 0x7 = 2 ∨
        (filter >>> 21) &&& 0x7 = 4 ∨ (filter >>> 21) &&& 0x7 = 5)) := by
  have hlt : (filter >>> 21) &&& 7 ≤ 7 := Nat.and_le_right
  unfold ad1724_iio_read_filter_3db ad1724_iio_read_filter_3db_value
  generalize (filter >>> 21) &&& 0x7 = fsel at hlt ⊢
  interval_cases fsel <;> simp [EINVAL]

/-- Claim C16.  For every requested gain `g` below `2 ^ 31`,
`ad7124_iio_find_closest_gain` returns an index `i` in `0..7` that minimises
`|2 ^ i - g|`, and among the indices attaining the minimum it returns the smallest. -/
theorem ad7124_find_closest_gain_minimises (g : ℕ) (hg : g < 2 ^ 31) :
    ∃ i, ad7124_iio_find_closest_gain g = some i ∧ i < 8 ∧
      (∀ j, j < 8 → |(2 : ℤ) ^ i - g| ≤ |(2 : ℤ) ^ j - g|) ∧
      (∀ j, j < 8 → |(2 : ℤ) ^ j - g| = |(2 : ℤ) ^ i - g| → i ≤ j) := by
  obtain ⟨i, hst, hi, hmin, hfirst⟩ := ad7124_find_closest_gain_invariant g 8 (by norm_num)
  refine ⟨i, ?_, hi, ?_, ?_⟩
  · unfold ad7124_iio_find_closest_gain
    rw [hst]
  · intro j hj
    rw [← ad7124_find_closest_gain_diff_eq g i hg hi, ← ad7124_find_closest_gain_diff_eq g j hg hj]
    exact_mod_cast hmin j hj
  · intro j hj he
    rw [← ad7124_find_closest_gain_diff_eq g i hg hi,
      ← ad7124_find_closest_gain_diff_eq g j hg hj] at he
    exact hfirst j hj (by exact_mod_cast he)

/-- Instance of C16 at the requested gain 6. -/
theorem ad7124_find_closest_gain_minimises_witness :
    6 < 2 ^ 31 ∧ ∃ i, ad7124_iio_find_closest_gain 6 = some i ∧ i < 8 ∧
      (∀ j, j < 8 → |(2 : ℤ) ^ i - (6 : ℕ)| ≤ |(2 : ℤ) ^ j - (6 : ℕ)|) ∧
      (∀ j, j < 8 → |(2 : ℤ) ^ j - (6 : ℕ)| = |(2 : ℤ) ^ i - (6 : ℕ)| → i ≤ j) :=
  ⟨by norm_num, ad7124_find_closest_gain_minimises 6 (by norm_num)⟩

/-- Claim C17, as amended.  For the requested gain 6 the gains 4 and 8 are both at
distance 2, and `ad7124_iio_find_closest_gain` returns the PGA select 2 (gain 4), the
first of the two in the ascending search. -/
theorem ad7124_find_closest_gain_six :
    ad7124_iio_find_closest_gain 6 = some 2 ∧
    ad7124_iio_find_closest_gain_diff 6 2 = 2 ∧ ad7124_iio_find_closest_gain_diff 6 3 = 2 := by
  decide

/-- Counterexample to C17 as stated: the PGA select returned for the requested gain 6 is
not 3. -/
theorem ad7124_find_closest_gain_six_counterexample :
    ad7124_iio_find_closest_gain 6 ≠ some 3 := by
  decide

/-- Claim C18.  `ad1724_iio_change_scale_chan` inverts `ad1724_iio_read_scale_chan`: for
every configuration register (every PGA select 0..7, either polarity), the scale read
from it, requested on a register with the same bipolar bit, yields the PGA select of the
register it was read from.  All quotients involved are powers of two and exact in single
precision. -/
theorem ad7124_change_scale_inverts_read_scale (cfg cfg2 : ℕ)
    (hb : (cfg2 >>> 11) &&& 0x1 = (cfg >>> 11) &&& 0x1) :
    ad1724_iio_change_scale_chan cfg2 (ad1724_iio_read_scale_chan cfg) = some (cfg &&& 0x7) := by
  have hp : cfg &&& 7 ≤ 7 := Nat.and_le_right
  have hbit : (cfg >>> 11) &&& 1 ≤ 1 := Nat.and_le_right
  rw [ad7124_read_scale_chan_eq]
  apply ad7124_change_scale_chan_of_two_pow cfg2 _ _ hp
  · split_ifs <;> norm_num
  · rw [hb]
    split_ifs with h <;> simp_all

/-- Instance of C18 with the bipolar register `0x805` (PGA select 5) read and the bipolar
register `0x800` written. -/
theorem ad7124_change_scale_inverts_read_scale_witness :
    (0x800 >>> 11) &&& 0x1 = (0x805 >>> 11) &&& 0x1 ∧
    ad1724_iio_change_scale_chan 0x800 (ad1724_iio_read_scale_chan 0x805) =
      some (0x805 &&& 0x7) :=
  ⟨by decide, ad7124_change_scale_inverts_read_scale 0x805 0x800 (by decide)⟩

/-- Claim C19.  For every content of the configuration register, that is for every PGA
select (low 3 bits) and either value of the bipolar bit (bit 11), the scale computed by
`ad1724_iio_read_scale_chan` is `2500 / 2 ^ (24 + pga_select - (1 if bipolar else 0))`;
hence a bipolar configuration has exactly twice the scale of a unipolar one with the same
PGA select. -/
theorem ad7124_read_scale_value (cfg : ℕ) :
    ad1724_iio_read_scale_chan cfg =
      (2500 : ℚ) / (2 : ℚ) ^ (24 + (cfg &&& 0x7) - (if (cfg >>> 11) &&& 0x1 ≠ 0 then 1 else 0)) ∧
    (∀ cfg2 : ℕ, cfg2 &&& 0x7 = cfg &&& 0x7 → (cfg >>> 11) &&& 0x1 ≠ 0 →
      (cfg2 >>> 11) &&& 0x1 = 0 →
      ad1724_iio_read_scale_chan cfg = 2 * ad1724_iio_read_scale_chan cfg2) := by
  refine ⟨ad7124_read_scale_chan_eq cfg, ?_⟩
  intro cfg2 hpga hb1 hb2
  rw [ad7124_read_scale_chan_eq cfg, ad7124_read_scale_chan_eq cfg2, hpga]
  simp only [hb1, hb2, ne_eq, not_true_eq_false, not_false_eq_true, if_true, if_false]
  have e : 24 + (cfg &&& 0x7) - 0 = (24 + (cfg &&& 0x7) - 1) + 1 := by omega
  rw [e, pow_succ]
  field_simp
  ring

/-- Instance of C19 with PGA select 3: the bipolar register `0x803` against the unipolar
register `0x003`. -/
theorem ad7124_read_scale_value_witness :
    0x003 &&& 0x7 = 0x803 &&& 0x7 ∧ (0x803 >>> 11) &&& 0x1 ≠ 0 ∧ (0x003 >>> 11) &&& 0x1 = 0 ∧
    ad1724_iio_read_scale_chan 0x803 = 2 * ad1724_iio_read_scale_chan 0x003 :=
  ⟨by decide, by decide, by decide,
    (ad7124_read_scale_value 0x803).2 0x003 (by decide) (by decide) (by decide)⟩

/-- Claim C20.  The range returned (and cached) by `AD7156_GetRange` is a function of bits
7:6 of the setup register alone, and maps that 2-bit field as `0b00 -> 2.0`,
`0b01 -> 0.5`, `0b10 -> 1.0`, `0b11 -> 4.0` pF; the four cases cover every register
content, so the initial value 0 is never returned. -/
theorem AD7156_GetRange_table (setupReg : ℕ) :
    AD7156_GetRange setupReg =
      (if (setupReg >>> 6) &&& 0x3 = 0 then 2
       else if (setupReg >>> 6) &&& 0x3 = 1 then 1 / 2
       else if (setupReg >>> 6) &&& 0x3 = 2 then 1
       else 4) ∧
    ((setupReg >>> 6) &&& 0x3 = 0 ∨ (setupReg >>> 6) &&& 0x3 = 1 ∨
      (setupReg >>> 6) &&& 0x3 = 2 ∨ (setupReg >>> 6) &&& 0x3 = 3) := by
  have hlt : (setupReg >>> 6) &&& 3 ≤ 3 := Nat.and_le_right
  unfold AD7156_GetRange
  simp only [AD7156_range_field]
  generalize (setupReg >>> 6) &&& 0x3 = sel at hlt ⊢
  interval_cases sel <;> simp [AD7156_CDC_RANGE_2_PF, AD7156_CDC_RANGE_0_5_PF,
    AD7156_CDC_RANGE_1_PF, AD7156_CDC_RANGE_4_PF]

/-- Claim C21.  `ad7124_8pmdz_fclk_logic_get` succeeds for every value read from the ADC
control register, and the clock it returns is selected by the power mode in bits 7:6 of
that value: 76800 for mode 0, 153600 for mode 1, 614400 for modes 2 and 3; the field takes
no other value. -/
theorem ad7124_fclk_by_power_mode (adc_control : ℕ) :
    ad7124_8pmdz_fclk_logic_get adc_control =
      .ok (if (adc_control >>> 6) &&& 3 = 0 then 76800
        else if (adc_control >>> 6) &&& 3 = 1 then 153600
        else 614400) ∧
    ((adc_control >>> 6) &&& 3 = 0 ∨ (adc_control >>> 6) &&& 3 = 1 ∨
      (adc_control >>> 6) &&& 3 = 2 ∨ (adc_control >>> 6) &&& 3 = 3) := by
  have hpm := ad7124_power_mode_lt adc_control
  unfold ad7124_8pmdz_fclk_logic_get
  rw [ad7124_power_mode_field] at hpm ⊢
  generalize (adc_control >>> 6) &&& 3 = pm at hpm ⊢
  interval_cases pm <;> simp

/-- Claim C22.  Range cache, on a register file in which a read returns the last value
written.  After `AD7156_GetRange` on a channel, and after `AD7156_SetRange` on a channel
with the selector `range`, the cached range of that channel (channel 1 when
`channel == 1`, channel 2 otherwise) is the range decoded from bits 7:6 now held in the
setup register of that channel, which after `AD7156_SetRange` are `range & 3`; the cached
range of the other channel is the one from before the call; and a following
`AD7156_SetSensitivity` or `AD7156_ReadChannelCapacitance` on that channel computes with
this decoded range. -/
theorem AD7156_range_cache (dev : ad7156_dev) (channel range : ℕ) (pFsensitivity : ℚ) :
    ((if channel = 1 then (AD7156_GetRange_dev dev channel).1.ad7156Channel1Range
        else (AD7156_GetRange_dev dev channel).1.ad7156Channel2Range) =
        AD7156_GetRange ((AD7156_GetRange_dev dev channel).1.regs
          (if channel = 1 then AD7156_REG_CH1_SETUP else AD7156_REG_CH2_SETUP)) ∧
      (if channel = 1 then (AD7156_GetRange_dev dev channel).1.ad7156Channel2Range
        else (AD7156_GetRange_dev dev channel).1.ad7156Channel1Range) =
        (if channel = 1 then dev.ad7156Channel2Range else dev.ad7156Channel1Range) ∧
      AD7156_SetSensitivity_dev (AD7156_GetRange_dev dev channel).1 channel pFsensitivity =
        AD7156_SetRegisterValue (AD7156_GetRange_dev dev channel).1
          (AD7156_SetSensitivity
            (AD7156_GetRange ((AD7156_GetRange_dev dev channel).1.regs
              (if channel = 1 then AD7156_REG_CH1_SETUP else AD7156_REG_CH2_SETUP)))
            pFsensitivity)
          (if channel = 1 then AD7156_REG_CH1_SENS_THRSH_H else AD7156_REG_CH2_SENS_THRSH_H)
          2 ∧
      AD7156_ReadChannelCapacitance_dev (AD7156_GetRange_dev dev channel).1 channel =
        AD7156_ReadChannelCapacitance
          (AD7156_GetRange ((AD7156_GetRange_dev dev channel).1.regs
            (if channel = 1 then AD7156_REG_CH1_SETUP else AD7156_REG_CH2_SETUP)))
          (AD7156_ReadChannelData (AD7156_GetRange_dev dev channel).1 channel)) ∧
    (((AD7156_SetRange dev channel range).regs
          (if channel = 1 then AD7156_REG_CH1_SETUP else AD7156_REG_CH2_SETUP) >>> 6) &&& 0x3 =
        range &&& 0x3 ∧
      (if channel = 1 then (AD7156_SetRange dev channel range).ad7156Channel1Range
        else (AD7156_SetRange dev channel range).ad7156Channel2Range) =
        AD7156_GetRange ((AD7156_SetRange dev channel range).regs
          (if channel = 1 then AD7156_REG_CH1_SETUP else AD7156_REG_CH2_SETUP)) ∧
      (if channel = 1 then (AD7156_SetRange dev channel range).ad7156Channel1Range
        else (AD7156_SetRange dev channel range).ad7156Channel2Range) =
        AD7156_GetRange (AD7156_CH1_SETUP_RANGE range) ∧
      (if channel = 1 then (AD7156_SetRange dev channel range).ad7156Channel2Range
        else (AD7156_SetRange dev channel range).ad7156Channel1Range) =
        (if channel = 1 then dev.ad7156Channel2Range else dev.ad7156Channel1Range) ∧
      AD7156_SetSensitivity_dev (AD7156_SetRange dev channel range) channel pFsensitivity =
        AD7156_SetRegisterValue (AD7156_SetRange dev channel range)
          (AD7156_SetSensitivity (AD7156_GetRange (AD7156_CH1_SETUP_RANGE range))
            pFsensitivity)
          (if channel = 1 then AD7156_REG_CH1_SENS_THRSH_H else AD7156_REG_CH2_SENS_THRSH_H)
          2 ∧
      AD7156_ReadChannelCapacitance_dev (AD7156_SetRange dev channel range) channel =
        AD7156_ReadChannelCapacitance (AD7156_GetRange (AD7156_CH1_SETUP_RANGE range))
          (AD7156_ReadChannelData (AD7156_SetRange dev channel range) channel)) := by
  have hg := AD7156_GetRange_dev_eq dev channel
  have hs := AD7156_SetRange_eq dev channel range
  have hfield : (AD7156_CH1_SETUP_RANGE range >>> 6) &&& 0x3 = range &&& 0x3 := by
    have h3 : ∀ x : ℕ, x &&& 3 = x % 4 := fun x => Nat.and_pow_two_sub_one_eq_mod x 2
    have hk : range &&& 3 < 4 := Nat.lt_succ_of_le Nat.and_le_right
    unfold AD7156_CH1_SETUP_RANGE
    rw [Nat.shiftLeft_shiftRight, h3 (range &&& 3)]
    omega
  have hdec : AD7156_GetRange ((AD7156_SetRange dev channel range).regs
      (if channel = 1 then AD7156_REG_CH1_SETUP else AD7156_REG_CH2_SETUP)) =
      AD7156_GetRange (AD7156_CH1_SETUP_RANGE range) :=
    AD7156_GetRange_congr _ _ (hs.1.trans hfield.symm)
  have hcg : (if channel = 1 then (AD7156_GetRange_dev dev channel).1.ad7156Channel1Range
      else (AD7156_GetRange_dev dev channel).1.ad7156Channel2Range) =
      AD7156_GetRange ((AD7156_GetRange_dev dev channel).1.regs
        (if channel = 1 then AD7156_REG_CH1_SETUP else AD7156_REG_CH2_SETUP)) := by
    rw [hg.2.1]
    by_cases h : channel = 1
    · simp only [h, if_true] at hg ⊢
      rw [hg.2.2.1, hg.1]
    · simp only [h, if_false] at hg ⊢
      rw [hg.2.2.2, hg.1]
  have hcs : (if channel = 1 then (AD7156_SetRange dev channel range).ad7156Channel1Range
      else (AD7156_SetRange dev channel range).ad7156Channel2Range) =
      AD7156_GetRange ((AD7156_SetRange dev channel range).regs
        (if channel = 1 then AD7156_REG_CH1_SETUP else AD7156_REG_CH2_SETUP)) := by
    by_cases h : channel = 1
    · simp only [h, if_true] at hs ⊢
      exact hs.2.2.2.1
    · simp only [h, if_false] at hs ⊢
      exact hs.2.2.2.2
  refine ⟨⟨hcg, ?_, ?_, ?_⟩, ⟨hs.1, hcs, hcs.trans hdec, ?_, ?_, ?_⟩⟩
  · by_cases h : channel = 1
    · simp only [h, if_true] at hg ⊢
      exact hg.2.2.2
    · simp only [h, if_false] at hg ⊢
      exact hg.2.2.1
  · rw [← hcg]
    rfl
  · rw [← hcg]
    rfl
  · by_cases h : channel = 1
    · simp only [h, if_true] at hs ⊢
      exact hs.2.2.2.2
    · simp only [h, if_false] at hs ⊢
      exact hs.2.2.2.1
  · rw [← hdec, ← hcs]
    rfl
  · rw [← hdec, ← hcs]
    rfl

/-- Claim C23, as amended.  For every filter register value with filter select other than
7, the rate divider read by `_ad7124_iio_get_odr` is at most 2047, and: when it is at
least 1, the divisor `flt_coff * fs_value` lies between 32 and 1244576 (non-zero, below
`2 ^ 24`, so neither the integer product nor its conversion to single precision loses
anything), the clock lookup succeeds and the function returns the single-precision
quotient `f_clk / (flt_coff * fs_value)`; when it is 0, the divisor is 0 and no quotient
is defined. -/
theorem ad7124_get_odr_divisor (adc_control filter : ℕ)
    (h7 : filter &&& AD7124_FILT_REG_FILTER 7 ≠ AD7124_FILT_REG_FILTER 7) :
    (filter &&& AD7124_FILT_REG_FS 0x7FF) % 65536 ≤ 2047 ∧
    (1 ≤ (filter &&& AD7124_FILT_REG_FS 0x7FF) % 65536 →
      32 ≤ ad7124_8pmdz_fltcoff_logic_get adc_control filter *
        ((filter &&& AD7124_FILT_REG_FS 0x7FF) % 65536) ∧
      ad7124_8pmdz_fltcoff_logic_get adc_control filter *
        ((filter &&& AD7124_FILT_REG_FS 0x7FF) % 65536) ≤ 1244576 ∧
      ∃ f_clk : ℚ, ad7124_8pmdz_fclk_logic_get adc_control = .ok f_clk ∧
        _ad7124_iio_get_odr adc_control filter =
          some (f32 (f_clk / ((ad7124_8pmdz_fltcoff_logic_get adc_control filter *
            ((filter &&& AD7124_FILT_REG_FS 0x7FF) % 65536) : ℕ) : ℚ)))) ∧
    ((filter &&& AD7124_FILT_REG_FS 0x7FF) % 65536 = 0 →
      ad7124_8pmdz_fltcoff_logic_get adc_control filter *
        ((filter &&& AD7124_FILT_REG_FS 0x7FF) % 65536) = 0 ∧
      _ad7124_iio_get_odr adc_control filter = none) := by
  have hfs := ad7124_fs_value_le filter
  have hco := ad7124_fltcoff_bounds adc_control filter
  refine ⟨hfs, fun h1 => ?_, fun h0 => ?_⟩
  · have hlo : 32 ≤ ad7124_8pmdz_fltcoff_logic_get adc_control filter *
        ((filter &&& AD7124_FILT_REG_FS 0x7FF) % 65536) := by nlinarith [hco.1]
    have hhi : ad7124_8pmdz_fltcoff_logic_get adc_control filter *
        ((filter &&& AD7124_FILT_REG_FS 0x7FF) % 65536) ≤ 1244576 := by nlinarith [hco.2]
    refine ⟨hlo, hhi, ?_⟩
    have hne : ad7124_8pmdz_fltcoff_logic_get adc_control filter *
        ((filter &&& AD7124_FILT_REG_FS 0x7FF) % 65536) ≠ 0 := by omega
    have hex : f32 ((ad7124_8pmdz_fltcoff_logic_get adc_control filter *
        ((filter &&& AD7124_FILT_REG_FS 0x7FF) % 65536) : ℕ) : ℚ) =
        ((ad7124_8pmdz_fltcoff_logic_get adc_control filter *
        ((filter &&& AD7124_FILT_REG_FS 0x7FF) % 65536) : ℕ) : ℚ) :=
      f32_ofNat_cast _ (by norm_num; omega)
    rcases ad7124_fclk_cases adc_control with hc | hc | hc
    · refine ⟨_, hc, ?_⟩
      unfold _ad7124_iio_get_odr
      rw [hc]
      simp only [if_neg h7, if_neg hne, hex]
    · refine ⟨_, hc, ?_⟩
      unfold _ad7124_iio_get_odr
      rw [hc]
      simp only [if_neg h7, if_neg hne, hex]
    · refine ⟨_, hc, ?_⟩
      unfold _ad7124_iio_get_odr
      rw [hc]
      simp only [if_neg h7, if_neg hne, hex]
  · have hz : ad7124_8pmdz_fltcoff_logic_get adc_control filter *
        ((filter &&& AD7124_FILT_REG_FS 0x7FF) % 65536) = 0 := by rw [h0]; rfl
    refine ⟨hz, ?_⟩
    rcases ad7124_fclk_cases adc_control with hc | hc | hc
    · unfold _ad7124_iio_get_odr
      rw [hc]
      simp only [if_neg h7, if_pos hz]
    · unfold _ad7124_iio_get_odr
      rw [hc]
      simp only [if_neg h7, if_pos hz]
    · unfold _ad7124_iio_get_odr
      rw [hc]
      simp only [if_neg h7, if_pos hz]

/-- Instance of C23 at the reset values of the registers: ADC control 0 and filter
`0x060180` (filter select 0, rate divider 384). -/
theorem ad7124_get_odr_divisor_witness :
    0x060180 &&& AD7124_FILT_REG_FILTER 7 ≠ AD7124_FILT_REG_FILTER 7 ∧
    1 ≤ (0x060180 &&& AD7124_FILT_REG_FS 0x7FF) % 65536 ∧
    32 ≤ ad7124_8pmdz_fltcoff_logic_get 0 0x060180 *
      ((0x060180 &&& AD7124_FILT_REG_FS 0x7FF) % 65536) ∧
    ad7124_8pmdz_fltcoff_logic_get 0 0x060180 *
      ((0x060180 &&& AD7124_FILT_REG_FS 0x7FF) % 65536) ≤ 1244576 ∧
    ∃ f_clk : ℚ, ad7124_8pmdz_fclk_logic_get 0 = .ok f_clk ∧
      _ad7124_iio_get_odr 0 0x060180 =
        some (f32 (f_clk / ((ad7124_8pmdz_fltcoff_logic_get 0 0x060180 *
          ((0x060180 &&& AD7124_FILT_REG_FS 0x7FF) % 65536) : ℕ) : ℚ))) :=
  ⟨by decide, by decide, (ad7124_get_odr_divisor 0 0x060180 (by decide)).2.1 (by decide)⟩

/-- Counterexample to C23 as stated.  The filter register value `0x060000` has filter
select 0 and the rate divider 0, which is a value of the 11-bit field: the divisor
`flt_coff * fs_value` of `_ad7124_iio_get_odr` is `32 * 0 = 0`, and the division has no
result. -/
theorem ad7124_get_odr_zero_divisor_counterexample :
    0x060000 &&& AD7124_FILT_REG_FILTER 7 ≠ AD7124_FILT_REG_FILTER 7 ∧
    (0x060000 &&& AD7124_FILT_REG_FS 0x7FF) % 65536 = 0 ∧
    ad7124_8pmdz_fltcoff_logic_get 0 0x060000 = 32 ∧
    ad7124_8pmdz_fltcoff_logic_get 0 0x060000 *
      ((0x060000 &&& AD7124_FILT_REG_FS 0x7FF) % 65536) = 0 ∧
    _ad7124_iio_get_odr 0 0x060000 = none := by
  refine ⟨by decide, by decide, by decide, by decide, ?_⟩
  rfl

/-- Claim C24.  In `ad1724_iio_write_filter_3db`, for a target cutoff `f` up to 4294967
(so that `f * 1000` fits in 32 bits): when `f >= 1`, `f * 1000 / 230 > f * 1000 / 262`
in integer division, so filter select 2 is written together with the rate
`f * 1000 / 262`; and filter select 0 is written exactly when `f = 0`. -/
theorem ad7124_write_filter_3db_always_sinc3 (f : ℕ) (h : f ≤ 4294967) :
    (1 ≤ f → f * 1000 / 230 > f * 1000 / 262 ∧
      ad1724_iio_write_filter_3db f = (2, f * 1000 / 262)) ∧
    ((ad1724_iio_write_filter_3db f).1 = 0 ↔ f = 0) := by
  have hmod : f * 1000 % 4294967296 = f * 1000 := Nat.mod_eq_of_lt (by omega)
  unfold ad1724_iio_write_filter_3db
  simp only [hmod]
  refine ⟨fun h1 => ?_, ?_⟩
  · have hgt := div_230_gt_div_262 f h1
    exact ⟨hgt, by rw [if_pos hgt]⟩
  · constructor
    · intro h0
      by_contra hf
      have hgt := div_230_gt_div_262 f (by omega)
      rw [if_pos hgt] at h0
      simp at h0
    · rintro rfl
      decide

/-- Instance of C24 at the target cutoff 1 Hz: 4 > 3, and filter select 2 is written with
the rate 3. -/
theorem ad7124_write_filter_3db_always_sinc3_witness :
    (1 : ℕ) ≤ 4294967 ∧
    ((1 ≤ 1 → 1 * 1000 / 230 > 1 * 1000 / 262 ∧
      ad1724_iio_write_filter_3db 1 = (2, 1 * 1000 / 262)) ∧
    ((ad1724_iio_write_filter_3db 1).1 = 0 ↔ 1 = 0)) :=
  ⟨by decide, ad7124_write_filter_3db_always_sinc3 1 (by decide)⟩

/-- Claim C25.  `AD7156_SetSensitivity` discards the high bits of the quotient instead of
saturating.  For every request `pFsensitivity >= 0` and every range `> 0` whose truncated
single-precision quotient `c = trunc(pFsensitivity * 0xA00 / range)` is below `2 ^ 16`,
the code computed is `(c mod 256) * 16`.  Consequently, for each of the ranges 0.5, 1, 2
and 4 pF (`2 ^ k` with `-1 <= k <= 2`) the request of a tenth of the range has `c = 256`
and is written as 0, and the code is not monotone in the request: at range 1.0 the
smaller request `51 / 512` pF has `c = 255` and is written as 4080. -/
theorem AD7156_SetSensitivity_discards_high_bits (range pFsensitivity : ℚ)
    (h0 : 0 ≤ pFsensitivity) (hr : 0 < range)
    (_hc : ⌊f32 (f32 (pFsensitivity * 0xA00) / range)⌋.toNat < 2 ^ 16) :
    AD7156_SetSensitivity range pFsensitivity =
      (⌊f32 (f32 (pFsensitivity * 0xA00) / range)⌋.toNat % 256) * 16 ∧
    (∀ k : ℤ, -1 ≤ k → k ≤ 2 →
      ⌊f32 (f32 (f32 ((2 : ℚ) ^ k / 10) * 0xA00) / 2 ^ k)⌋.toNat = 256 ∧
      AD7156_SetSensitivity (2 ^ k) (f32 ((2 : ℚ) ^ k / 10)) = 0) ∧
    ((51 / 512 : ℚ) < f32 (1 / 10) ∧
      AD7156_SetSensitivity 1 (f32 (1 / 10)) < AD7156_SetSensitivity 1 (51 / 512) ∧
      AD7156_SetSensitivity 1 (51 / 512) = 4080) := by
  refine ⟨AD7156_SetSensitivity_mod range pFsensitivity h0 hr, ?_, ?_⟩
  · intro k h1 h2
    have hk := AD7156_tenth_of_range k h1 h2
    have hpos : (0 : ℚ) < 2 ^ k := by positivity
    have ht : (0 : ℚ) ≤ f32 ((2 : ℚ) ^ k / 10) := f32_nonneg _ (by positivity)
    have hfl : ⌊f32 (f32 (f32 ((2 : ℚ) ^ k / 10) * 0xA00) / 2 ^ k)⌋.toNat = 256 := by
      rw [hk.2]
      have : ⌊(256 : ℚ)⌋ = 256 := by
        rw [Int.floor_eq_iff]; norm_num
      rw [this]; rfl
    refine ⟨hfl, ?_⟩
    rw [AD7156_SetSensitivity_mod _ _ ht hpos, hfl]
  · have hk := AD7156_tenth_of_range 0 (by norm_num) (by norm_num)
    norm_num at hk
    have ht : (0 : ℚ) ≤ f32 (1 / 10) := f32_nonneg _ (by norm_num)
    have hfl : ⌊f32 (f32 (f32 (1 / 10) * 0xA00) / 1)⌋.toNat = 256 := by
      have h2 := hk.2
      norm_num at h2 ⊢
      rw [h2]
      have : ⌊(256 : ℚ)⌋ = 256 := by
        rw [Int.floor_eq_iff]; norm_num
      rw [this]; rfl
    have e0 : AD7156_SetSensitivity 1 (f32 (1 / 10)) = 0 := by
      rw [AD7156_SetSensitivity_mod _ _ ht (by norm_num), hfl]
    have e1 : AD7156_SetSensitivity 1 (51 / 512) = 4080 := by
      rw [AD7156_SetSensitivity_mod _ _ (by norm_num) (by norm_num)]
      have a1 : f32 (51 / 512 * 0xA00 : ℚ) = 255 := by
        have := f32_intCast 255 (by norm_num)
        norm_num at this ⊢
        exact this
      have a2 : f32 (255 / 1 : ℚ) = 255 := by
        have := f32_intCast 255 (by norm_num)
        norm_num at this ⊢
        exact this
      rw [a1, a2]
      have : ⌊(255 : ℚ)⌋ = 255 := by
        rw [Int.floor_eq_iff]; norm_num
      rw [this]; rfl
    refine ⟨?_, ?_, e1⟩
    · rw [hk.1]; norm_num
    · rw [e0, e1]; norm_num

/-- Instance of C25 at range 1.0 and the request `1 / 8` pF: the quotient is 320, and the
code written is `(320 mod 256) * 16 = 1024`. -/
theorem AD7156_SetSensitivity_discards_high_bits_witness :
    (0 : ℚ) ≤ 1 / 8 ∧ (0 : ℚ) < 1 ∧
    ⌊f32 (f32 (1 / 8 * 0xA00) / 1)⌋.toNat < 2 ^ 16 ∧
    ⌊f32 (f32 (1 / 8 * 0xA00) / 1)⌋.toNat = 320 ∧
    AD7156_SetSensitivity 1 (1 / 8) =
      (⌊f32 (f32 (1 / 8 * 0xA00) / 1)⌋.toNat % 256) * 16 := by
  have a1 : f32 (1 / 8 * 0xA00 : ℚ) = 320 := by
    have := f32_intCast 320 (by norm_num)
    norm_num at this ⊢
    exact this
  have a2 : f32 (320 / 1 : ℚ) = 320 := by
    have := f32_intCast 320 (by norm_num)
    norm_num at this ⊢
    exact this
  have a3 : ⌊(320 : ℚ)⌋ = 320 := by
    rw [Int.floor_eq_iff]; norm_num
  have hfl : ⌊f32 (f32 (1 / 8 * 0xA00) / 1)⌋.toNat = 320 := by
    rw [a1, a2, a3]; rfl
  exact ⟨by norm_num, by norm_num, by rw [hfl]; norm_num, hfl,
    (AD7156_SetSensitivity_discards_high_bits 1 (1 / 8) (by norm_num) (by norm_num)
      (by rw [hfl]; norm_num)).1⟩
